import Mathlib

/-!
# Verification of the tgBot subscription lifecycle engine

A shallow embedding, in Lean 4, of the core of the `tgBot` repository:

* the payment-cookie binding protocol of `app/admin/app.py`
  (`_parse_and_verify_payment_cookie`, `robokassa_success`, `robokassa_fail`),
* the expiration sweep of `app/core/subscription_manager.py`
  (`remove_expired_subscriptions`),
* the registration conversation of `app/bot/bot.py`
  (`start_command`, `handle_questionnaire`, `handle_consent`).

Timestamps are modelled as integers (Unix seconds); `timedelta(days := d)`
is `d * 86400` seconds.  Database rows are records in lists; SQLAlchemy's
in-place mutation of a row object is modelled as a value-preserving map over
the row list.  Fallible Python code is modelled with `Option`/`Except`.
-/

namespace TgBot

/-! ## A model of Python `int(str)` parsing

`int(s)` strips surrounding whitespace, allows one leading `+` or `-`,
and then requires a nonempty run of decimal digits.  (Underscore digit
grouping and non-ASCII digits are not modelled; no issued token contains
them.)  A failing parse raises `ValueError`, modelled as `none`. -/

/-- Numeric value of a list of decimal digits, most significant first. -/
def digitsVal : List Char → Nat
  | [] => 0
  | c :: cs => (c.toNat - '0'.toNat) * 10 ^ cs.length + digitsVal cs

/-- Model of Python `int(s)`: optional surrounding whitespace, optional
sign, then a nonempty string of decimal digits; anything else raises
`ValueError` (`none`). -/
def pyInt (s : String) : Option Int :=
  let cs := ((s.toList.dropWhile Char.isWhitespace).reverse.dropWhile
      Char.isWhitespace).reverse
  match cs with
  | [] => none
  | c :: rest =>
    let signed : Int × List Char :=
      if c = '+' then (1, rest) else if c = '-' then (-1, rest) else (1, c :: rest)
    if signed.2 ≠ [] ∧ signed.2.all Char.isDigit then
      some (signed.1 * (digitsVal signed.2 : Int))
    else none

/-! ## The payment cookie (`app/admin/app.py`)

`_sign_payment_token` is HMAC-SHA256 under `settings.SECRET_KEY`, base64url
without padding.  The verifier only ever compares signature strings for
equality (`hmac.compare_digest`), so the development is parameterised over
an arbitrary signing function `sign : String → String`; every theorem holds
for the real HMAC instance. -/

/-- Splitting a character list at every `'.'`, keeping empty segments —
the semantics of Python `str.split(".")`. -/
def splitDotChars : List Char → List (List Char)
  | [] => [[]]
  | c :: cs =>
    match splitDotChars cs, decide (c = '.') with
    | r, true => [] :: r
    | [], false => [[c]]
    | h :: t, false => (c :: h) :: t

/-- Model of `cookie_value.split(".")`. -/
def splitOnDot (s : String) : List String :=
  (splitDotChars s.toList).map String.mk

/-- Embedding of `_make_payment_cookie_value`: `payment_id.issued_at.sig`
with `sig = sign (payment_id ++ "." ++ issued_at)`. -/
def makePaymentCookieValue (sign : String → String) (paymentId : String)
    (issuedAtStr : String) : String :=
  let payload := paymentId ++ "." ++ issuedAtStr
  payload ++ "." ++ sign payload

/-- Embedding of `_parse_and_verify_payment_cookie`.  Splits the cookie on
`"."`; requires exactly three parts; recomputes and compares the signature;
parses `issued_at` with Python `int`; rejects tokens older than
`maxAge` seconds or issued more than 60 seconds in the future.  Any
exception path of the Python code (`int` failure) is a `none` branch, so
the model is total. -/
def parseAndVerifyPaymentCookie (sign : String → String) (now : Int)
    (cookieValue : String) (maxAge : Int := 3600) : Option String :=
  match splitOnDot cookieValue with
  | [paymentId, issuedAtStr, sig] =>
    if sig = sign (paymentId ++ "." ++ issuedAtStr) then
      (pyInt issuedAtStr).bind fun issuedAt =>
        if now - issuedAt > maxAge ∨ issuedAt > now + 60 then none
        else some paymentId
    else none
  | _ => none

/-! ## The database rows (`app/models/models.py`)

`DateTime` columns are Unix seconds (`Int`); nullable columns are
`Option`.  Status columns are the literal strings of the source. -/

/-- Row of the `payments` table. -/
structure Payment where
  id : Nat
  user_id : Nat
  payment_id : String
  amount : Int
  currency : String
  status : String
  created_at : Int
  completed_at : Option Int
deriving DecidableEq

/-- Row of the `subscriptions` table. -/
structure Subscription where
  id : Nat
  user_id : Nat
  start_date : Int
  end_date : Option Int
  is_active : Bool
  auto_renewal : Bool
  payment_amount : Option Int
deriving DecidableEq

/-- Row of the `users` table (the fields the lifecycle engine touches). -/
structure UserRec where
  id : Nat
  telegram_id : Int
  username : Option String
  full_name : String
  activity_field : String
  company : String
  role_in_company : String
  contact_number : String
  participation_purpose : String
  consent_given : Bool
  consent_date : Option Int
  last_activity : Int
  is_in_paid_channel : Bool
  paid_channel_join_date : Option Int
deriving DecidableEq

/-- The relational state shared by the admin app and the bot. -/
structure AdminDB where
  users : List UserRec
  subscriptions : List Subscription
  payments : List Payment
deriving DecidableEq

/-- `db.query(User).filter(User.id == uid).first()`. -/
def findUserById (us : List UserRec) (uid : Nat) : Option UserRec :=
  us.find? fun u => u.id = uid

/-- `db.query(Subscription).filter(Subscription.user_id == uid).first()`
(no `order_by`; modelled as first in table order). -/
def findSubscriptionByUser (ss : List Subscription) (uid : Nat) :
    Option Subscription :=
  ss.find? fun s => s.user_id = uid

/-- The filter of the redirect handlers' payment query:
`payment_id == pid, status == "pending", created_at >= now - 60 minutes`. -/
def isPendingMatch (now : Int) (pid : String) (p : Payment) : Bool :=
  p.payment_id = pid ∧ p.status = "pending" ∧ now - 3600 ≤ p.created_at

/-- `order_by(Payment.created_at.desc()).first()`: the row with the largest
`created_at` among the filtered ones. -/
def latestCreated : List Payment → Option Payment
  | [] => none
  | p :: ps =>
    match latestCreated ps with
    | none => some p
    | some q => if q.created_at > p.created_at then some q else some p

/-- The pending-payment lookup shared by `robokassa_success` and
`robokassa_fail`. -/
def findPendingPayment (db : AdminDB) (now : Int) (pid : String) :
    Option Payment :=
  latestCreated (db.payments.filter (isPendingMatch now pid))

/-- The guard chain at the top of both redirect handlers: read the cookie,
verify it, then look up the specific pending payment within the 60-minute
window; `none` at any stage renders the "not found" page with no database
change. -/
def matchedPendingPayment (sign : String → String) (now : Int)
    (cookie : Option String) (db : AdminDB) : Option Payment :=
  (cookie.bind fun cv => parseAndVerifyPaymentCookie sign now cv).bind
    (findPendingPayment db now)

/-- SQLAlchemy's in-place mutation `payment.status = st;
payment.completed_at = now` of one fetched row object, modelled as
replacing that row's value in the table. -/
def markPayment (ps : List Payment) (target : Payment) (st : String)
    (now : Int) : List Payment :=
  ps.map fun p =>
    if p = target then { p with status := st, completed_at := some now } else p

/-- In-place update of one fetched subscription row. -/
def updateSubscription (ss : List Subscription) (target upd : Subscription) :
    List Subscription :=
  ss.map fun s => if s = target then upd else s

/-- Autoincrement primary key for an inserted subscription row. -/
def freshSubId (ss : List Subscription) : Nat :=
  (ss.map Subscription.id).foldr max 0 + 1

/-- The subscription block of `robokassa_success`: if a subscription row
exists for the user and its `end_date` is set and in the future, add the
configured duration to `end_date` (and set `is_active`); otherwise create a
fresh row, or reset the stale row, with `start_date = now`,
`end_date = now + duration`, `is_active = true`.  `timedelta(days := d)` is
`d * 86400`; `int(payment.amount / 100) if payment.amount else None` is
integer division (amounts are positive multiples of 100). -/
def applySubscriptionPayment (ss : List Subscription) (uid : Nat) (now : Int)
    (durationDays : Int) (amount : Int) : List Subscription :=
  match findSubscriptionByUser ss uid with
  | some s =>
    match s.end_date with
    | some e =>
      if e > now then
        updateSubscription ss s
          { s with end_date := some (e + durationDays * 86400),
                   is_active := true }
      else
        updateSubscription ss s
          { s with start_date := now,
                   end_date := some (now + durationDays * 86400),
                   is_active := true }
    | none =>
      updateSubscription ss s
        { s with start_date := now,
                 end_date := some (now + durationDays * 86400),
                 is_active := true }
  | none =>
    ss ++ [{ id := freshSubId ss, user_id := uid, start_date := now,
             end_date := some (now + durationDays * 86400), is_active := true,
             auto_renewal := false,
             payment_amount := if amount ≠ 0 then some (amount / 100)
                               else none }]

/-- `add_user_to_paid_channel`'s database write: set
`is_in_paid_channel = true` and the join timestamp on the fetched user row
(committed only when the external invite/send calls succeed). -/
def setPaidChannelFlags (us : List UserRec) (target : UserRec) (now : Int) :
    List UserRec :=
  us.map fun u =>
    if u = target then
      { u with is_in_paid_channel := true, paid_channel_join_date := some now }
    else u

/-- Embedding of `robokassa_success` as its sequence of committed database
snapshots.  The source runs up to three separate transactions: a
`db.commit()` directly after marking the payment `success`, a second
`db.commit()` after the subscription block (only reached when the payment's
user row exists), and a third commit inside `add_user_to_paid_channel` for
the paid-channel flags, performed only when the external invite/send calls
succeed (`grantOk`; on their failure the handler logs and keeps the ledger
state).  A crash between commits leaves the database at the last snapshot
before the crash; an empty trace means no transaction was committed. -/
def robokassaSuccessTrace (sign : String → String) (now : Int)
    (grantOk : Bool) (durationDays : Int) (cookie : Option String)
    (db : AdminDB) : List AdminDB :=
  match matchedPendingPayment sign now cookie db with
  | none => []
  | some payment =>
    let db1 : AdminDB :=
      { db with payments := markPayment db.payments payment "success" now }
    match findUserById db1.users payment.user_id with
    | none => [db1]
    | some user =>
      let db2 : AdminDB :=
        { db1 with subscriptions := (applySubscriptionPayment
            db1.subscriptions user.id now durationDays payment.amount) }
      if grantOk then
        [db1, db2,
         { db2 with users := setPaidChannelFlags db2.users user now }]
      else [db1, db2]

/-- The database state after `robokassa_success` returns. -/
def robokassaSuccessFinal (sign : String → String) (now : Int)
    (grantOk : Bool) (durationDays : Int) (cookie : Option String)
    (db : AdminDB) : AdminDB :=
  (robokassaSuccessTrace sign now grantOk durationDays cookie db).getLast?.getD
    db

/-- Embedding of `robokassa_fail`: if the cookie verifies and a pending
payment within the window is found, mark it `failed` with
`completed_at = now` (one commit); otherwise change nothing. -/
def robokassaFailFinal (sign : String → String) (now : Int)
    (cookie : Option String) (db : AdminDB) : AdminDB :=
  match matchedPendingPayment sign now cookie db with
  | none => db
  | some payment =>
    { db with payments := markPayment db.payments payment "failed" now }

/-! ## The expiration sweep (`app/core/subscription_manager.py`)

`remove_expired_subscriptions` selects, once, the active subscriptions
whose `end_date` has passed (an inner join with `users`), then processes
each row inside a per-row `try/except ... continue`:

* `remove_user_from_paid_channel` performs the external ban call; it logs
  and re-raises on failure, so a failed call aborts only this row, before
  any mutation;
* on success the row's `is_active` is set `False` and the user's
  paid-channel flags are cleared;
* `send_removal_notification` attempts one message and swallows its own
  exceptions, so it never aborts a row;
* `removed_count` counts the mutated rows and the single `db.commit()` at
  the end runs only when it is positive (every mutation increments it, so
  the guard never discards work).

External behaviour is a parameter `revokeOk : Int → Bool` saying whether
the ban call for a Telegram id succeeds; the attempted external calls are
returned as an effect list. -/

/-- The external calls attempted by the revocation pass. -/
inductive SweepEffect where
  | revokeCall : Int → SweepEffect
  | removalNotice : Int → SweepEffect
deriving DecidableEq

/-- The Telegram id an effect is addressed to. -/
def effectTid : SweepEffect → Int
  | SweepEffect.revokeCall t => t
  | SweepEffect.removalNotice t => t

/-- `user.is_in_paid_channel = False; user.paid_channel_join_date = None`. -/
def clearedPaid (u : UserRec) : UserRec :=
  { u with is_in_paid_channel := false, paid_channel_join_date := none }

/-- `subscription.is_active = False`. -/
def deactivated (s : Subscription) : Subscription :=
  { s with is_active := false }

/-- In-place clearing of the fetched user row. -/
def clearPaidFlags (us : List UserRec) (target : UserRec) : List UserRec :=
  us.map fun u => if u = target then clearedPaid u else u

/-- In-place deactivation of the fetched subscription row. -/
def deactivateSubscription (ss : List Subscription) (target : Subscription) :
    List Subscription :=
  ss.map fun s => if s = target then deactivated s else s

/-- The sweep query's filter: `is_active == True AND end_date < now`,
joined with `users` (a row without its user is not selected; SQL `NULL <
now` is not true). -/
def isExpiredActive (db : AdminDB) (now : Int) (s : Subscription) : Bool :=
  s.is_active &&
    (match s.end_date with
     | some e => decide (e < now)
     | none => false) &&
    (findUserById db.users s.user_id).isSome

/-- The rows selected (once, up front) by the revocation pass. -/
def expiredSubscriptions (db : AdminDB) (now : Int) : List Subscription :=
  db.subscriptions.filter (isExpiredActive db now)

/-- Processing of one selected row: look up `subscription.user` in the
current state, attempt the revoke call, and on success mutate and notify;
a `none` user or a failed revoke leaves the accumulator's state untouched
(the per-row `except` clause continues with the next row). -/
def sweepRow (revokeOk : Int → Bool)
    (acc : AdminDB × List SweepEffect × Nat) (s : Subscription) :
    AdminDB × List SweepEffect × Nat :=
  match findUserById acc.1.users s.user_id with
  | none => acc
  | some u =>
    if revokeOk u.telegram_id then
      ({ acc.1 with
           subscriptions := deactivateSubscription acc.1.subscriptions s,
           users := clearPaidFlags acc.1.users u },
       acc.2.1 ++ [SweepEffect.revokeCall u.telegram_id,
                   SweepEffect.removalNotice u.telegram_id],
       acc.2.2 + 1)
    else
      (acc.1, acc.2.1 ++ [SweepEffect.revokeCall u.telegram_id], acc.2.2)

/-- Embedding of `remove_expired_subscriptions`: fold the per-row step
over the selected rows, then commit iff `removed_count > 0`.  Returns the
committed database and the attempted external calls, in order. -/
def removeExpiredSubscriptions (revokeOk : Int → Bool) (now : Int)
    (db : AdminDB) : AdminDB × List SweepEffect :=
  let result :=
    (expiredSubscriptions db now).foldl (sweepRow revokeOk) (db, [], 0)
  (if 0 < result.2.2 then result.1 else db, result.2.1)

/-- States reachable from `db` by sweep steps: each user row is either
itself or its cleared copy, each subscription row itself or its
deactivated copy, payments untouched. -/
def SweepReach (db adb : AdminDB) : Prop :=
  ∃ g h, (∀ x, g x = x ∨ g x = clearedPaid x) ∧
    (∀ x, h x = x ∨ h x = deactivated x) ∧
    adb.users = db.users.map g ∧
    adb.subscriptions = db.subscriptions.map h ∧
    adb.payments = db.payments

/-! ## The registration conversation (`app/bot/bot.py`)

A per-user finite-state dialogue run by a `ConversationHandler`.  The
scratch map `user_data_temp` is an in-process dict keyed by Telegram id;
the database is the `users` table.  Exceptions escaping a handler are
modelled with `Except` (`python-telegram-bot` keeps the conversation
state when a handler raises; no error handler is registered).  The
database session itself is modelled as reliable, so the `except` branches
around queries are dead code here. -/

/-- The `ConversationHandler` states (plus `ended` for
`ConversationHandler.END` / no active conversation). -/
inductive ConvState where
  | fillingQuestionnaire
  | waitingForConsent
  | mainMenu
  | settingsMenu
  | paymentMenu
  | ended
deriving DecidableEq

/-- The inbound events of the registration dialogue: `/start`, a free-text
answer, a `consent_yes`/`consent_no` button press. -/
inductive ConvEvent where
  | startCmd : ConvEvent
  | text : String → ConvEvent
  | consent : Bool → ConvEvent
deriving DecidableEq

/-- The outbound messages the claims distinguish (tags for the literal
texts of the source). -/
inductive BotMsg where
  | alreadyRegistered
  | question : Nat → BotMsg
  | nameReprompt
  | phoneReprompt
  | scratchError
  | consentPrompt
  | profileUpdated
  | userNotFound
  | registrationDone
  | consentDeclined
  | mainMenuShown
deriving DecidableEq

/-- A `user_data_temp[uid]` entry: current question index and the
accumulated `data` dict. -/
structure Scratch where
  step : Nat
  answers : List (String × String)
deriving DecidableEq

/-- Python dict read with default `''` (`data.get(key, '')`). -/
def dictGet (d : List (String × String)) (k : String) : String :=
  match d.find? fun p => p.1 = k with
  | some p => p.2
  | none => ""

/-- Python dict write (`data[key] = value`). -/
def dictInsert (d : List (String × String)) (k v : String) :
    List (String × String) :=
  if d.any fun p => p.1 = k then
    d.map fun p => if p.1 = k then (k, v) else p
  else d ++ [(k, v)]

/-- `user_data_temp.get(uid)`. -/
def scratchGet (m : List (Int × Scratch)) (uid : Int) : Option Scratch :=
  (m.find? fun p => p.1 = uid).map Prod.snd

/-- `user_data_temp[uid] = s`. -/
def scratchSet (m : List (Int × Scratch)) (uid : Int) (s : Scratch) :
    List (Int × Scratch) :=
  if m.any fun p => p.1 = uid then
    m.map fun p => if p.1 = uid then (uid, s) else p
  else m ++ [(uid, s)]

/-- `if uid in user_data_temp: del user_data_temp[uid]` (and the
unguarded `del` at places where the key is known present). -/
def scratchDel (m : List (Int × Scratch)) (uid : Int) :
    List (Int × Scratch) :=
  m.filter fun p => ¬ p.1 = uid

/-- `db.query(User).filter(User.telegram_id == uid).first()`. -/
def findUserByTelegram (us : List UserRec) (uid : Int) : Option UserRec :=
  us.find? fun u => u.telegram_id = uid

/-- In-place update of one fetched user row. -/
def updateUser (us : List UserRec) (target upd : UserRec) : List UserRec :=
  us.map fun w => if w = target then upd else w

/-- Autoincrement primary key for an inserted user row. -/
def freshUserId (us : List UserRec) : Nat :=
  (us.map UserRec.id).foldr max 0 + 1

/-- The six questionnaire field names, in prompt order. -/
def fields : List String :=
  ["full_name", "activity_field", "company", "role_in_company",
   "contact_number", "participation_purpose"]

/-- Python `value.split()`: split on whitespace runs, dropping empties. -/
def pySplitWords (s : String) : List String :=
  (s.split Char.isWhitespace).filter fun t => !t.isEmpty

/-- One anchored attempt of `(\+7|8)\d{10}` against a whole character
list: `+7` or `8` followed by exactly ten characters of the digit class
`pyDigit`.  Python's `\d` (against `str`, no `re.ASCII`) matches every
Unicode decimal digit, a table of the interpreter's Unicode database; the
development therefore takes the class as a parameter, and the theorems
assume only that on ASCII it contains exactly `0`-`9`. -/
def phoneCore (pyDigit : Char → Bool) (cs : List Char) : Bool :=
  (decide (cs.take 2 = ['+', '7']) && decide ((cs.drop 2).length = 10) &&
    (cs.drop 2).all pyDigit) ||
  (decide (cs.take 1 = ['8']) && decide ((cs.drop 1).length = 10) &&
    (cs.drop 1).all pyDigit)

/-- Embedding of `re.match(r'^(\+7|8)\d{10}$', value)` under Python `re`
semantics: `re.match` anchors at the start (the `^` is redundant), `\d`
is the Unicode decimal-digit class `pyDigit`, and `$` matches at the end
of the string or just before one newline at the end of the string, so a
single trailing `'\n'` is tolerated. -/
def matchesPhone (pyDigit : Char → Bool) (s : String) : Bool :=
  phoneCore pyDigit s.toList ||
    (decide (s.toList.getLast? = some '\x0A') &&
      phoneCore pyDigit s.toList.dropLast)

/-- The plain language of the regex `^(\+7|8)\d{10}$`, written from the
spec's words with their conventional reading (ASCII digits, end of
string), to be compared with the source-derived matcher. -/
def phoneSpec (s : String) : Prop :=
  ∃ ds : List Char, (s.toList = '+' :: '7' :: ds ∨ s.toList = '8' :: ds) ∧
    ds.length = 10 ∧ ∀ c ∈ ds, c.isDigit = true

/-- The language `re.match(r'^(\+7|8)\d{10}$', ·)` actually accepts:
prefix `+7` or `8`, ten characters of the digit class, and `$` allowing
the trailing part to be empty or one newline. -/
def pyPhoneSpec (pyDigit : Char → Bool) (s : String) : Prop :=
  ∃ ds tl : List Char,
    (s.toList = '+' :: '7' :: (ds ++ tl) ∨ s.toList = '8' :: (ds ++ tl)) ∧
    ds.length = 10 ∧ (∀ c ∈ ds, pyDigit c = true) ∧
    (tl = [] ∨ tl = ['\x0A'])

/-- Profile-field overwrite used by both `update_user_data` and the
update branch of `handle_consent`. -/
def applyProfile (ex : UserRec) (d : List (String × String)) (now : Int) :
    UserRec :=
  { ex with full_name := dictGet d "full_name",
            activity_field := dictGet d "activity_field",
            company := dictGet d "company",
            role_in_company := dictGet d "role_in_company",
            contact_number := dictGet d "contact_number",
            participation_purpose := dictGet d "participation_purpose",
            last_activity := now }

/-- The `User` row created by the accept branch of `handle_consent` for a
first-time user. -/
def newUserFromScratch (us : List UserRec) (uid : Int)
    (username : Option String) (d : List (String × String)) (now : Int) :
    UserRec :=
  { id := freshUserId us, telegram_id := uid, username := username,
    full_name := dictGet d "full_name",
    activity_field := dictGet d "activity_field",
    company := dictGet d "company",
    role_in_company := dictGet d "role_in_company",
    contact_number := dictGet d "contact_number",
    participation_purpose := dictGet d "participation_purpose",
    consent_given := true, consent_date := some now, last_activity := now,
    is_in_paid_channel := false, paid_channel_join_date := none }

/-- What one handler invocation leaves behind: the returned conversation
state, the scratch map, the persistent user table, and the replies sent. -/
structure ConvResult where
  state : ConvState
  scratch : List (Int × Scratch)
  users : List UserRec
  msgs : List BotMsg
deriving DecidableEq

/-- Embedding of `start_command` (+ `start_registration`): clear any stale
scratch entry; a user with prior consent goes straight to the main menu,
anyone else gets a fresh scratch entry and question 0. -/
def startCommand (uid : Int) (users : List UserRec)
    (scratch : List (Int × Scratch)) : ConvResult :=
  let scratch1 := scratchDel scratch uid
  match findUserByTelegram users uid with
  | some ex =>
    if ex.consent_given then
      { state := ConvState.mainMenu, scratch := scratch1, users := users,
        msgs := [BotMsg.alreadyRegistered] }
    else
      { state := ConvState.fillingQuestionnaire,
        scratch := scratchSet scratch1 uid { step := 0, answers := [] },
        users := users, msgs := [BotMsg.question 0] }
  | none =>
    { state := ConvState.fillingQuestionnaire,
      scratch := scratchSet scratch1 uid { step := 0, answers := [] },
      users := users, msgs := [BotMsg.question 0] }

/-- Embedding of `update_user_data` together with the `return MAIN_MENU`
of its caller: overwrite the profile fields (no consent change), drop the
scratch entry, confirm and show the main menu; the user-vanished branch
only reports (the caller still returns `MAIN_MENU`). -/
def updateUserData (uid : Int) (now : Int) (users : List UserRec)
    (scratch : List (Int × Scratch)) (ud : Scratch) : ConvResult :=
  match findUserByTelegram users uid with
  | some ex =>
    { state := ConvState.mainMenu,
      scratch := scratchDel scratch uid,
      users := updateUser users ex (applyProfile ex ud.answers now),
      msgs := [BotMsg.profileUpdated, BotMsg.mainMenuShown] }
  | none =>
    { state := ConvState.mainMenu, scratch := scratch, users := users,
      msgs := [BotMsg.userNotFound] }

/-- Embedding of `handle_questionnaire`.  No scratch entry: error reply
and `END`.  A failing validation re-prompts without advancing.  Otherwise
the answer is stored and the step advanced; after the sixth answer a user
with prior consent is updated directly, anyone else is asked for consent.
`fields[step]` out of range raises `IndexError` (`Except.error`;
unreachable through the dispatcher).  `pyDigit` is the interpreter's
Unicode decimal-digit class used by the phone regex. -/
def handleQuestionnaire (pyDigit : Char → Bool) (uid : Int)
    (value : String) (now : Int)
    (users : List UserRec) (scratch : List (Int × Scratch)) :
    Except Unit ConvResult :=
  match scratchGet scratch uid with
  | none =>
    Except.ok { state := ConvState.ended, scratch := scratch,
                users := users, msgs := [BotMsg.scratchError] }
  | some ud =>
    match fields.get? ud.step with
    | none => Except.error ()
    | some fieldName =>
      if fieldName = "full_name" ∧ (pySplitWords value).length < 2 then
        Except.ok { state := ConvState.fillingQuestionnaire,
                    scratch := scratch, users := users,
                    msgs := [BotMsg.nameReprompt] }
      else if fieldName = "contact_number" ∧ ¬ matchesPhone pyDigit value
          then
        Except.ok { state := ConvState.fillingQuestionnaire,
                    scratch := scratch, users := users,
                    msgs := [BotMsg.phoneReprompt] }
      else
        let ud' : Scratch :=
          { step := ud.step + 1,
            answers := dictInsert ud.answers fieldName value }
        let scratch' := scratchSet scratch uid ud'
        if ud'.step < 6 then
          Except.ok { state := ConvState.fillingQuestionnaire,
                      scratch := scratch', users := users,
                      msgs := [BotMsg.question ud'.step] }
        else
          match findUserByTelegram users uid with
          | some ex =>
            if ex.consent_given then
              Except.ok (updateUserData uid now users scratch' ud')
            else
              Except.ok { state := ConvState.waitingForConsent,
                          scratch := scratch', users := users,
                          msgs := [BotMsg.consentPrompt] }
          | none =>
            Except.ok { state := ConvState.waitingForConsent,
                        scratch := scratch', users := users,
                        msgs := [BotMsg.consentPrompt] }

/-- Embedding of `handle_consent`.  Accept: the scratch entry is read
with an UNGUARDED `user_data_temp[user_id]` - a missing entry raises
`KeyError` (`Except.error`); otherwise the user row is created or
overwritten with `consent_given = true`, the scratch entry dropped, and
the main menu shown.  Decline: terminal message and `END` (the scratch
entry is NOT dropped by this branch). -/
def handleConsent (uid : Int) (username : Option String) (accept : Bool)
    (now : Int) (users : List UserRec) (scratch : List (Int × Scratch)) :
    Except Unit ConvResult :=
  if accept then
    match scratchGet scratch uid with
    | none => Except.error ()
    | some ud =>
      let users' :=
        match findUserByTelegram users uid with
        | some ex =>
          let upd : UserRec := applyProfile ex ud.answers now
          updateUser users ex
            { upd with username := username, consent_given := true,
                       consent_date := some now }
        | none =>
          users ++ [newUserFromScratch users uid username ud.answers now]
      Except.ok { state := ConvState.mainMenu,
                  scratch := scratchDel scratch uid, users := users',
                  msgs := [BotMsg.registrationDone, BotMsg.mainMenuShown] }
  else
    Except.ok { state := ConvState.ended, scratch := scratch,
                users := users, msgs := [BotMsg.consentDeclined] }

/-- The `ConversationHandler` dispatch for the registration dialogue:
`/start` is an entry point (it fires when no conversation is active);
text answers are routed only in `FILLING_QUESTIONNAIRE`, consent buttons
only in `WAITING_FOR_CONSENT`; everything else is ignored. -/
def stepConv (pyDigit : Char → Bool) (uid : Int) (username : Option String)
    (now : Int) (st : ConvState) (users : List UserRec)
    (scratch : List (Int × Scratch)) (ev : ConvEvent) :
    Except Unit ConvResult :=
  match ev with
  | ConvEvent.startCmd =>
    match st with
    | ConvState.ended => Except.ok (startCommand uid users scratch)
    | _ => Except.ok { state := st, scratch := scratch, users := users,
                       msgs := [] }
  | ConvEvent.text v =>
    match st with
    | ConvState.fillingQuestionnaire =>
      handleQuestionnaire pyDigit uid v now users scratch
    | _ => Except.ok { state := st, scratch := scratch, users := users,
                       msgs := [] }
  | ConvEvent.consent b =>
    match st with
    | ConvState.waitingForConsent =>
      handleConsent uid username b now users scratch
    | _ => Except.ok { state := st, scratch := scratch, users := users,
                       msgs := [] }

/-- Total semantics of one dispatched event: when the handler raises,
`python-telegram-bot` keeps the conversation state and nothing is
persisted. -/
def stepConvTotal (pyDigit : Char → Bool) (uid : Int)
    (username : Option String) (now : Int)
    (st : ConvState) (users : List UserRec)
    (scratch : List (Int × Scratch)) (ev : ConvEvent) : ConvResult :=
  match stepConv pyDigit uid username now st users scratch ev with
  | Except.ok r => r
  | Except.error _ =>
    { state := st, scratch := scratch, users := users, msgs := [] }

/-- "This user has a persisted row with consent." -/
def hasConsent (uid : Int) (users : List UserRec) : Prop :=
  ∃ ex, findUserByTelegram users uid = some ex ∧ ex.consent_given = true

/-- The C6 invariant: being in the main menu implies persisted consent. -/
def consentInvariant (uid : Int) (st : ConvState) (users : List UserRec) :
    Prop :=
  st = ConvState.mainMenu → hasConsent uid users

/-! ## Concrete fixtures (for witnesses and counterexamples) -/

/-- A registered, consenting user. -/
def sampleUser : UserRec :=
  { id := 1, telegram_id := 10, username := some "u", full_name := "Ivanov Ivan",
    activity_field := "IT", company := "Acme", role_in_company := "dev",
    contact_number := "+79991234567", participation_purpose := "net",
    consent_given := true, consent_date := some 0, last_activity := 0,
    is_in_paid_channel := false, paid_channel_join_date := none }

/-- A pending payment of 999 rubles created at t = 50. -/
def samplePending : Payment :=
  { id := 1, user_id := 1, payment_id := "P1", amount := 99900,
    currency := "RUB", status := "pending", created_at := 50,
    completed_at := none }

/-- A payment already in terminal status. -/
def sampleDone : Payment :=
  { id := 2, user_id := 1, payment_id := "P2", amount := 99900,
    currency := "RUB", status := "success", created_at := 40,
    completed_at := some 60 }

/-- One user, no subscription, one pending payment. -/
def sampleDB : AdminDB :=
  { users := [sampleUser], subscriptions := [], payments := [samplePending] }

/-- One user, no subscription, one terminal payment. -/
def sampleDBdone : AdminDB :=
  { users := [sampleUser], subscriptions := [], payments := [sampleDone] }

/-- A signer usable in concrete evaluations (the development never relies
on any property of the signing function). -/
def constSign : String → String := fun _ => "S"

/-- `sampleUser` after joining the paid channel. -/
def samplePaidUser : UserRec :=
  { sampleUser with is_in_paid_channel := true,
                    paid_channel_join_date := some 1 }

/-- An active subscription whose `end_date` has passed (at `now = 100`). -/
def sampleExpiredSub : Subscription :=
  { id := 1, user_id := 1, start_date := 0, end_date := some 50,
    is_active := true, auto_renewal := false, payment_amount := some 999 }

/-- A database ripe for the revocation pass. -/
def sampleSweepDB : AdminDB :=
  { users := [samplePaidUser], subscriptions := [sampleExpiredSub],
    payments := [] }

/-- An external channel client whose ban calls always succeed. -/
def allRevokeOk : Int → Bool := fun _ => true

/-- A second user, in the paid channel. -/
def samplePaidUser2 : UserRec :=
  { id := 2, telegram_id := 20, username := some "v",
    full_name := "Petrov Petr", activity_field := "Law", company := "Bcme",
    role_in_company := "ceo", contact_number := "89991234567",
    participation_purpose := "biz", consent_given := true,
    consent_date := some 0, last_activity := 0, is_in_paid_channel := true,
    paid_channel_join_date := some 2 }

/-- A second expired subscription, for the second user. -/
def sampleExpiredSub2 : Subscription :=
  { id := 2, user_id := 2, start_date := 0, end_date := some 60,
    is_active := true, auto_renewal := false, payment_amount := some 999 }

/-- Two expired rows whose users differ. -/
def sampleSweepDB2 : AdminDB :=
  { users := [samplePaidUser, samplePaidUser2],
    subscriptions := [sampleExpiredSub, sampleExpiredSub2], payments := [] }

/-- A channel client that fails to ban Telegram id 10. -/
def failFirstRevoke : Int → Bool := fun t => decide (t ≠ 10)

/-- Scratch state awaiting the contact-number answer (step 4). -/
def sampleScratch4 : Scratch :=
  { step := 4,
    answers := [("full_name", "Ivanov Ivan"), ("activity_field", "IT"),
                ("company", "Acme"), ("role_in_company", "dev")] }

/-- Scratch state awaiting the last answer (step 5). -/
def sampleScratch5 : Scratch :=
  { step := 5,
    answers := [("full_name", "Ivanov Ivan"), ("activity_field", "IT"),
                ("company", "Acme"), ("role_in_company", "dev"),
                ("contact_number", "+79991234567")] }

/-! ## Theorems -/

/-! ### Supporting lemmas -/

/-- The row returned by `latestCreated` is one of the rows it was given. -/
theorem latestCreated_mem : ∀ {l : List Payment} {p : Payment},
    latestCreated l = some p → p ∈ l := by
  intro l
  induction l with
  | nil => intro p h; cases h
  | cons a t ih =>
    intro p h
    rcases ht : latestCreated t with _ | q
    · simp only [latestCreated, ht] at h
      injection h with h
      exact h ▸ List.mem_cons_self a t
    · simp only [latestCreated, ht] at h
      by_cases hc : q.created_at > a.created_at
      · rw [if_pos hc] at h
        injection h with h
        exact h ▸ List.mem_cons_of_mem a (ih ht)
      · rw [if_neg hc] at h
        injection h with h
        exact h ▸ List.mem_cons_self a t

/-- A row found by the pending-payment query is a table row that is
pending, carries the requested `payment_id`, and was created within the
60-minute window. -/
theorem findPendingPayment_spec {db : AdminDB} {now : Int} {pid : String}
    {p : Payment} (h : findPendingPayment db now pid = some p) :
    p ∈ db.payments ∧ p.payment_id = pid ∧ p.status = "pending" ∧
      now - 3600 ≤ p.created_at := by
  have hmem := latestCreated_mem h
  have hf := List.mem_filter.mp hmem
  refine ⟨hf.1, ?_⟩
  have hb := hf.2
  simpa [isPendingMatch, decide_eq_true_iff] using hb

/-- If every row bearing `pid` is terminal, the pending-payment query
returns nothing. -/
theorem findPendingPayment_eq_none {db : AdminDB} {now : Int} {pid : String}
    (h : ∀ q ∈ db.payments, q.payment_id = pid → q.status ≠ "pending") :
    findPendingPayment db now pid = none := by
  unfold findPendingPayment
  have hnil : db.payments.filter (isPendingMatch now pid) = [] := by
    rw [List.filter_eq_nil_iff]
    intro a ha hm
    have hprops : a.payment_id = pid ∧ a.status = "pending" ∧
        now - 3600 ≤ a.created_at := by
      simpa [isPendingMatch, decide_eq_true_iff] using hm
    exact h a ha hprops.1 hprops.2.1
  rw [hnil]
  rfl

/-- Decomposition of the redirect handlers' guard chain. -/
theorem matchedPendingPayment_spec {sign : String → String} {now : Int}
    {cookie : Option String} {db : AdminDB} {t : Payment}
    (h : matchedPendingPayment sign now cookie db = some t) :
    ∃ cv, cookie = some cv ∧
      parseAndVerifyPaymentCookie sign now cv = some t.payment_id ∧
      findPendingPayment db now t.payment_id = some t ∧
      t ∈ db.payments ∧ t.status = "pending" ∧ now - 3600 ≤ t.created_at := by
  unfold matchedPendingPayment at h
  rcases Option.bind_eq_some.mp h with ⟨pid, h1, h2⟩
  rcases Option.bind_eq_some.mp h1 with ⟨cv, hcv, hver⟩
  obtain ⟨hmem, hpid, hpend, hwin⟩ := findPendingPayment_spec h2
  subst hpid
  exact ⟨cv, hcv, hver, h2, hmem, hpend, hwin⟩

/-- A row other than the fetched one is untouched by the in-place payment
update. -/
theorem mem_markPayment_of_ne {ps : List Payment} {target : Payment}
    {st : String} {now : Int} {p : Payment} (hmem : p ∈ ps)
    (hne : p ≠ target) : p ∈ markPayment ps target st now :=
  List.mem_map.mpr ⟨p, hmem, by rw [if_neg hne]⟩

/-- The fetched row's updated value is in the updated table. -/
theorem mem_markPayment_target {ps : List Payment} {target : Payment}
    {st : String} {now : Int} (hmem : target ∈ ps) :
    ({ target with status := st, completed_at := some now } : Payment) ∈
      markPayment ps target st now :=
  List.mem_map.mpr ⟨target, hmem, by rw [if_pos rfl]⟩

/-- A table row that disappears under the in-place payment update is the
fetched row. -/
theorem eq_target_of_not_mem_markPayment {ps : List Payment}
    {target : Payment} {st : String} {now : Int} {p : Payment}
    (hmem : p ∈ ps) (hnot : p ∉ markPayment ps target st now) : p = target := by
  by_contra hne
  exact hnot (mem_markPayment_of_ne hmem hne)

/-- Closed form of the state `robokassa_success` leaves behind. -/
theorem robokassaSuccessFinal_eq (sign : String → String) (now : Int)
    (grantOk : Bool) (dur : Int) (cookie : Option String) (db : AdminDB) :
    robokassaSuccessFinal sign now grantOk dur cookie db =
      match matchedPendingPayment sign now cookie db with
      | none => db
      | some payment =>
        match findUserById db.users payment.user_id with
        | none =>
          { db with payments := markPayment db.payments payment "success" now }
        | some user =>
          if grantOk then
            { db with
              payments := markPayment db.payments payment "success" now,
              subscriptions := (applySubscriptionPayment db.subscriptions
                user.id now dur payment.amount),
              users := setPaidChannelFlags db.users user now }
          else
            { db with
              payments := markPayment db.payments payment "success" now,
              subscriptions := (applySubscriptionPayment db.subscriptions
                user.id now dur payment.amount) } := by
  unfold robokassaSuccessFinal robokassaSuccessTrace
  rcases hm : matchedPendingPayment sign now cookie db with _ | payment
  · rfl
  · simp only []
    rcases hu : findUserById db.users payment.user_id with _ | user
    · rfl
    · rcases grantOk <;> rfl

/-- A one-element split around a row that occurs exactly once. -/
theorem count_one_split {α : Type} [DecidableEq α] :
    ∀ {l : List α} {a : α}, l.count a = 1 →
      ∃ l1 l2, l = l1 ++ a :: l2 ∧ a ∉ l1 ∧ a ∉ l2 := by
  intro l
  induction l with
  | nil => intro a h; simp at h
  | cons b t ih =>
    intro a h
    rw [List.count_cons] at h
    by_cases hba : b = a
    · subst hba
      simp at h
      have hz : t.count b = 0 := by omega
      exact ⟨[], t, rfl, by simp, List.count_eq_zero.mp hz⟩
    · rw [if_neg (by simpa using hba)] at h
      obtain ⟨l1, l2, rfl, h1, h2⟩ := @ih a (by omega)
      refine ⟨b :: l1, l2, rfl, ?_, h2⟩
      intro hmem
      rcases List.mem_cons.mp hmem with hb | hl
      · exact hba hb.symm
      · exact h1 hl

/-- Looking a user up in an id-preserving rewrite of the table. -/
theorem findUserById_map (us : List UserRec) (f : UserRec → UserRec)
    (hid : ∀ u, (f u).id = u.id) (uid : Nat) :
    findUserById (us.map f) uid = (findUserById us uid).map f := by
  induction us with
  | nil => rfl
  | cons a l ih =>
    by_cases h : a.id = uid
    · have hfa : (f a).id = uid := by rw [hid a, h]
      unfold findUserById
      rw [List.map_cons, List.find?_cons_of_pos _ (by simpa using hfa),
        List.find?_cons_of_pos _ (by simpa using h)]
      rfl
    · have hfa : ¬ (f a).id = uid := by rw [hid a]; exact h
      unfold findUserById
      rw [List.map_cons, List.find?_cons_of_neg _ (by simpa using hfa),
        List.find?_cons_of_neg _ (by simpa using h)]
      exact ih

/-- Clearing preserves identity fields, and is idempotent. -/
theorem clearedPaid_fields (u : UserRec) :
    (clearedPaid u).id = u.id ∧
    (clearedPaid u).telegram_id = u.telegram_id ∧
    clearedPaid (clearedPaid u) = clearedPaid u :=
  ⟨rfl, rfl, rfl⟩

/-- A sweep-reachable user table preserves every lookup up to cleared
paid-channel flags; in particular ids and Telegram ids survive. -/
theorem sweepReach_findUser {db adb : AdminDB} (hr : SweepReach db adb)
    (uid : Nat) :
    (findUserById db.users uid = none → findUserById adb.users uid = none) ∧
    (∀ w, findUserById db.users uid = some w →
      findUserById adb.users uid = some w ∨
      findUserById adb.users uid = some (clearedPaid w)) := by
  obtain ⟨g, h, hg, hh, hus, hsubs, hpay⟩ := hr
  have hid : ∀ u, (g u).id = u.id := by
    intro u
    rcases hg u with h1 | h1
    · rw [h1]
    · rw [h1]
      rfl
  rw [hus, findUserById_map db.users g hid uid]
  constructor
  · intro hnone
    rw [hnone]
    rfl
  · intro w hw
    rw [hw]
    rcases hg w with h1 | h1
    · exact Or.inl (by simp [h1])
    · exact Or.inr (by simp [h1])

/-- `SweepReach` is reflexive. -/
theorem sweepReach_refl (db : AdminDB) : SweepReach db db :=
  ⟨id, id, fun _ => Or.inl rfl, fun _ => Or.inl rfl, by simp, by simp, rfl⟩

/-- One sweep step keeps the state sweep-reachable. -/
theorem sweepRow_reach {db : AdminDB} {acc : AdminDB × List SweepEffect × Nat}
    (revokeOk : Int → Bool) (s : Subscription) (hr : SweepReach db acc.1) :
    SweepReach db (sweepRow revokeOk acc s).1 := by
  obtain ⟨g, h, hg, hh, hus, hsubs, hpay⟩ := hr
  unfold sweepRow
  rcases hfu : findUserById acc.1.users s.user_id with _ | u
  · exact ⟨g, h, hg, hh, hus, hsubs, hpay⟩
  · simp only []
    by_cases hok : revokeOk u.telegram_id
    · rw [if_pos hok]
      refine ⟨fun x => if g x = u then clearedPaid (g x) else g x,
              fun x => if h x = s then deactivated (h x) else h x,
              ?_, ?_, ?_, ?_, hpay⟩
      · intro x
        simp only []
        rcases hg x with h1 | h1 <;> rw [h1]
        · by_cases hc : x = u
          · rw [if_pos hc]
            exact Or.inr rfl
          · rw [if_neg hc]
            exact Or.inl rfl
        · by_cases hcc : clearedPaid x = u
          · rw [if_pos hcc]
            exact Or.inr rfl
          · rw [if_neg hcc]
            exact Or.inr rfl
      · intro x
        simp only []
        rcases hh x with h1 | h1 <;> rw [h1]
        · by_cases hc : x = s
          · rw [if_pos hc]
            exact Or.inr rfl
          · rw [if_neg hc]
            exact Or.inl rfl
        · by_cases hcc : deactivated x = s
          · rw [if_pos hcc]
            exact Or.inr rfl
          · rw [if_neg hcc]
            exact Or.inr rfl
      · show clearPaidFlags acc.1.users u = _
        rw [hus]
        unfold clearPaidFlags
        rw [List.map_map]
        rfl
      · show deactivateSubscription acc.1.subscriptions s = _
        rw [hsubs]
        unfold deactivateSubscription
        rw [List.map_map]
        rfl
    · rw [if_neg hok]
      exact ⟨g, h, hg, hh, hus, hsubs, hpay⟩

/-- The whole fold keeps the state sweep-reachable. -/
theorem sweepFold_reach {db : AdminDB} (revokeOk : Int → Bool) :
    ∀ (rows : List Subscription) (acc : AdminDB × List SweepEffect × Nat),
    SweepReach db acc.1 →
    SweepReach db (rows.foldl (sweepRow revokeOk) acc).1 := by
  intro rows
  induction rows with
  | nil => exact fun acc h => h
  | cons t ts ih => exact fun acc h => ih _ (sweepRow_reach revokeOk t h)

/-- The per-row step never decreases `removed_count` and only appends
effects. -/
theorem sweepRow_shape (revokeOk : Int → Bool)
    (acc : AdminDB × List SweepEffect × Nat) (s : Subscription) :
    acc.2.2 ≤ (sweepRow revokeOk acc s).2.2 ∧
    ∃ new, (sweepRow revokeOk acc s).2.1 = acc.2.1 ++ new := by
  unfold sweepRow
  rcases findUserById acc.1.users s.user_id with _ | u
  · exact ⟨Nat.le_refl _, [], by simp⟩
  · simp only []
    by_cases hok : revokeOk u.telegram_id
    · rw [if_pos hok]
      exact ⟨Nat.le_succ _, _, rfl⟩
    · rw [if_neg hok]
      exact ⟨Nat.le_refl _, _, rfl⟩

/-- The fold never decreases `removed_count`. -/
theorem sweepFold_count_le (revokeOk : Int → Bool) :
    ∀ (rows : List Subscription) (acc : AdminDB × List SweepEffect × Nat),
    acc.2.2 ≤ (rows.foldl (sweepRow revokeOk) acc).2.2 := by
  intro rows
  induction rows with
  | nil => exact fun acc => Nat.le_refl _
  | cons t ts ih =>
    intro acc
    exact Nat.le_trans (sweepRow_shape revokeOk acc t).1 (ih _)

/-- A deactivated row value, once present, survives every further sweep
step. -/
theorem sweepRow_preserves_deactivated {acc : AdminDB × List SweepEffect × Nat}
    (revokeOk : Int → Bool) (t s₀ : Subscription)
    (hmem : deactivated s₀ ∈ acc.1.subscriptions) :
    deactivated s₀ ∈ (sweepRow revokeOk acc t).1.subscriptions := by
  unfold sweepRow
  rcases findUserById acc.1.users t.user_id with _ | u
  · exact hmem
  · simp only []
    by_cases hok : revokeOk u.telegram_id
    · rw [if_pos hok]
      refine List.mem_map.mpr ⟨deactivated s₀, hmem, ?_⟩
      by_cases hdt : deactivated s₀ = t
      · rw [if_pos hdt]
        rfl
      · rw [if_neg hdt]
    · rw [if_neg hok]
      exact hmem

/-- A cleared user value, once present, survives every further sweep
step. -/
theorem sweepRow_preserves_cleared {acc : AdminDB × List SweepEffect × Nat}
    (revokeOk : Int → Bool) (t : Subscription) (u₀ : UserRec)
    (hmem : clearedPaid u₀ ∈ acc.1.users) :
    clearedPaid u₀ ∈ (sweepRow revokeOk acc t).1.users := by
  unfold sweepRow
  rcases findUserById acc.1.users t.user_id with _ | u
  · exact hmem
  · simp only []
    by_cases hok : revokeOk u.telegram_id
    · rw [if_pos hok]
      refine List.mem_map.mpr ⟨clearedPaid u₀, hmem, ?_⟩
      by_cases hdt : clearedPaid u₀ = u
      · rw [if_pos hdt]
        rfl
      · rw [if_neg hdt]
    · rw [if_neg hok]
      exact hmem

/-- Fold version of the two preservation lemmas. -/
theorem sweepFold_preserves (revokeOk : Int → Bool) :
    ∀ (rows : List Subscription) (acc : AdminDB × List SweepEffect × Nat)
      (s₀ : Subscription) (u₀ : UserRec),
    deactivated s₀ ∈ acc.1.subscriptions → clearedPaid u₀ ∈ acc.1.users →
    deactivated s₀ ∈ (rows.foldl (sweepRow revokeOk) acc).1.subscriptions ∧
    clearedPaid u₀ ∈ (rows.foldl (sweepRow revokeOk) acc).1.users := by
  intro rows
  induction rows with
  | nil => exact fun acc s₀ u₀ hs hu => ⟨hs, hu⟩
  | cons t ts ih =>
    intro acc s₀ u₀ hs hu
    exact ih _ s₀ u₀ (sweepRow_preserves_deactivated revokeOk t s₀ hs)
      (sweepRow_preserves_cleared revokeOk t u₀ hu)

/-- No row keeps the still-active value `s` after `s` itself is
deactivated in place. -/
theorem not_mem_deactivateSubscription (l : List Subscription)
    (s : Subscription) (hact : s.is_active = true) :
    s ∉ deactivateSubscription l s := by
  intro hmem
  rcases List.mem_map.mp hmem with ⟨q, hq, himg⟩
  by_cases hqs : q = s
  · rw [if_pos hqs] at himg
    have hfalse : s.is_active = false := by
      rw [← himg]
      rfl
    rw [hact] at hfalse
    cases hfalse
  · rw [if_neg hqs] at himg
    exact hqs himg

/-- An active row value absent from the table cannot reappear under a
sweep step. -/
theorem sweepRow_not_mem {acc : AdminDB × List SweepEffect × Nat}
    (revokeOk : Int → Bool) (t s : Subscription) (hact : s.is_active = true)
    (hnot : s ∉ acc.1.subscriptions) :
    s ∉ (sweepRow revokeOk acc t).1.subscriptions := by
  unfold sweepRow
  rcases findUserById acc.1.users t.user_id with _ | u
  · exact hnot
  · simp only []
    by_cases hok : revokeOk u.telegram_id
    · rw [if_pos hok]
      intro hmem
      rcases List.mem_map.mp hmem with ⟨q, hq, himg⟩
      by_cases hqt : q = t
      · rw [if_pos hqt] at himg
        have hfalse : s.is_active = false := by
          rw [← himg]
          rfl
        rw [hact] at hfalse
        cases hfalse
      · rw [if_neg hqt] at himg
        exact hnot (himg ▸ hq)
    · rw [if_neg hok]
      exact hnot

/-- Fold version of `sweepRow_not_mem`. -/
theorem sweepFold_not_mem (revokeOk : Int → Bool) :
    ∀ (rows : List Subscription) (acc : AdminDB × List SweepEffect × Nat)
      (s : Subscription), s.is_active = true → s ∉ acc.1.subscriptions →
    s ∉ (rows.foldl (sweepRow revokeOk) acc).1.subscriptions := by
  intro rows
  induction rows with
  | nil => exact fun acc s _ h => h
  | cons t ts ih =>
    intro acc s hact hnot
    exact ih _ s hact (sweepRow_not_mem revokeOk t s hact hnot)

/-- Processing the target row from a reachable state: the row is
deactivated (and its still-active value disappears), its user's flags
cleared, and the count incremented. -/
theorem sweepRow_hits {db : AdminDB} {acc : AdminDB × List SweepEffect × Nat}
    (revokeOk : Int → Bool) {s : Subscription} {u : UserRec}
    (hr : SweepReach db acc.1) (hmem : s ∈ db.subscriptions)
    (hu : findUserById db.users s.user_id = some u)
    (hok : revokeOk u.telegram_id = true) :
    deactivated s ∈ (sweepRow revokeOk acc s).1.subscriptions ∧
    clearedPaid u ∈ (sweepRow revokeOk acc s).1.users ∧
    acc.2.2 + 1 ≤ (sweepRow revokeOk acc s).2.2 ∧
    (s.is_active = true → s ∉ (sweepRow revokeOk acc s).1.subscriptions) := by
  have hfu := (sweepReach_findUser hr s.user_id).2 u hu
  obtain ⟨g, h, hg, hh, hus, hsubs, hpay⟩ := hr
  have hsubhit : deactivated s ∈ deactivateSubscription acc.1.subscriptions
      s := by
    have hhs : h s ∈ acc.1.subscriptions := by
      rw [hsubs]
      exact List.mem_map.mpr ⟨s, hmem, rfl⟩
    refine List.mem_map.mpr ⟨h s, hhs, ?_⟩
    rcases hh s with h1 | h1 <;> rw [h1]
    · rw [if_pos rfl]
    · by_cases hds : deactivated s = s
      · rw [if_pos hds]
        rfl
      · rw [if_neg hds]
  rcases hfu with hcur | hcur
  · unfold sweepRow
    rw [hcur]
    simp only []
    rw [if_pos hok]
    refine ⟨hsubhit, ?_, Nat.le_refl _,
      fun hact => not_mem_deactivateSubscription _ s hact⟩
    have humem := List.mem_of_find?_eq_some hcur
    refine List.mem_map.mpr ⟨u, humem, ?_⟩
    rw [if_pos rfl]
  · unfold sweepRow
    rw [hcur]
    simp only []
    have hok2 : revokeOk (clearedPaid u).telegram_id = true := hok
    rw [if_pos hok2]
    refine ⟨hsubhit, ?_, Nat.le_refl _,
      fun hact => not_mem_deactivateSubscription _ s hact⟩
    have humem := List.mem_of_find?_eq_some hcur
    refine List.mem_map.mpr ⟨clearedPaid u, humem, ?_⟩
    rw [if_pos rfl]
    rfl

/-- A step on a row whose user does not carry Telegram id `tid` adds no
effect addressed to `tid`. -/
theorem sweepRow_effects_other {db : AdminDB}
    {acc : AdminDB × List SweepEffect × Nat} (revokeOk : Int → Bool)
    {s : Subscription} (tid : Int) (hr : SweepReach db acc.1)
    (hne : ∀ w, findUserById db.users s.user_id = some w →
      w.telegram_id ≠ tid) :
    (sweepRow revokeOk acc s).2.1.filter (fun eff => effectTid eff = tid) =
      acc.2.1.filter (fun eff => effectTid eff = tid) := by
  unfold sweepRow
  rcases hfu : findUserById acc.1.users s.user_id with _ | u
  · rfl
  · simp only []
    rcases hw : findUserById db.users s.user_id with _ | w
    · have hnone := (sweepReach_findUser hr s.user_id).1 hw
      rw [hnone] at hfu
      cases hfu
    · have hcases := (sweepReach_findUser hr s.user_id).2 w hw
      have htid : u.telegram_id = w.telegram_id := by
        rcases hcases with hc | hc <;> rw [hfu] at hc <;> injection hc with hc
        · rw [hc]
        · rw [hc]
          rfl
      have hnetid : u.telegram_id ≠ tid := by
        rw [htid]
        exact hne w hw
      by_cases hok : revokeOk u.telegram_id
      · rw [if_pos hok]
        simp only []
        rw [List.filter_append]
        have hz : ([SweepEffect.revokeCall u.telegram_id,
            SweepEffect.removalNotice u.telegram_id].filter
              (fun eff => effectTid eff = tid)) = [] := by
          simp [effectTid, hnetid]
        rw [hz, List.append_nil]
      · rw [if_neg hok]
        simp only []
        rw [List.filter_append]
        have hz : ([SweepEffect.revokeCall u.telegram_id].filter
            (fun eff => effectTid eff = tid)) = [] := by
          simp [effectTid, hnetid]
        rw [hz, List.append_nil]

/-- Fold version of `sweepRow_effects_other`. -/
theorem sweepFold_effects_other {db : AdminDB} (revokeOk : Int → Bool)
    (tid : Int) :
    ∀ (rows : List Subscription) (acc : AdminDB × List SweepEffect × Nat),
    SweepReach db acc.1 →
    (∀ t ∈ rows, ∀ w, findUserById db.users t.user_id = some w →
      w.telegram_id ≠ tid) →
    (rows.foldl (sweepRow revokeOk) acc).2.1.filter
        (fun eff => effectTid eff = tid) =
      acc.2.1.filter (fun eff => effectTid eff = tid) := by
  intro rows
  induction rows with
  | nil => intro acc _ _; rfl
  | cons t ts ih =>
    intro acc hr hne
    rw [List.foldl_cons,
      ih _ (sweepRow_reach revokeOk t hr)
        (fun r hrm => hne r (List.mem_cons_of_mem t hrm)),
      sweepRow_effects_other revokeOk tid hr (hne t (List.mem_cons_self t ts))]

/-- Processing the target row appends exactly one revoke call and one
removal notice addressed to its user. -/
theorem sweepRow_effects_self {db : AdminDB}
    {acc : AdminDB × List SweepEffect × Nat} (revokeOk : Int → Bool)
    {s : Subscription} {u : UserRec} (hr : SweepReach db acc.1)
    (hu : findUserById db.users s.user_id = some u)
    (hok : revokeOk u.telegram_id = true) :
    (sweepRow revokeOk acc s).2.1.filter
        (fun eff => effectTid eff = u.telegram_id) =
      acc.2.1.filter (fun eff => effectTid eff = u.telegram_id) ++
        [SweepEffect.revokeCall u.telegram_id,
         SweepEffect.removalNotice u.telegram_id] := by
  rcases (sweepReach_findUser hr s.user_id).2 u hu with hcur | hcur
  · unfold sweepRow
    rw [hcur]
    simp only []
    rw [if_pos hok]
    simp only []
    rw [List.filter_append]
    have hz : ([SweepEffect.revokeCall u.telegram_id,
        SweepEffect.removalNotice u.telegram_id].filter
          (fun eff => effectTid eff = u.telegram_id)) =
        [SweepEffect.revokeCall u.telegram_id,
         SweepEffect.removalNotice u.telegram_id] := by
      simp [effectTid]
    rw [hz]
  · unfold sweepRow
    rw [hcur]
    simp only []
    have hok2 : revokeOk (clearedPaid u).telegram_id = true := hok
    rw [if_pos hok2]
    simp only []
    rw [List.filter_append]
    have hz : ([SweepEffect.revokeCall (clearedPaid u).telegram_id,
        SweepEffect.removalNotice (clearedPaid u).telegram_id].filter
          (fun eff => effectTid eff = u.telegram_id)) =
        [SweepEffect.revokeCall u.telegram_id,
         SweepEffect.removalNotice u.telegram_id] := by
      simp [effectTid, clearedPaid]
    rw [hz]

/-- Unfolding of the sweep query's filter. -/
theorem isExpiredActive_iff (db : AdminDB) (now : Int) (s : Subscription) :
    isExpiredActive db now s = true ↔
      s.is_active = true ∧ (∃ e, s.end_date = some e ∧ e < now) ∧
        (findUserById db.users s.user_id).isSome = true := by
  unfold isExpiredActive
  rcases hse : s.end_date with _ | e
  · simp [hse]
  · simp [hse, Bool.and_eq_true, decide_eq_true_iff, and_assoc]

/-- Reachable states preserve whether a user lookup succeeds. -/
theorem sweepReach_findUser_isSome {db adb : AdminDB} (hr : SweepReach db adb)
    (uid : Nat) :
    (findUserById adb.users uid).isSome = (findUserById db.users uid).isSome
    := by
  obtain ⟨g, h, hg, hh, hus, hsubs, hpay⟩ := hr
  have hid : ∀ u, (g u).id = u.id := by
    intro u
    rcases hg u with h1 | h1
    · rw [h1]
    · rw [h1]
      rfl
  rw [hus, findUserById_map db.users g hid uid]
  rcases findUserById db.users uid <;> rfl

/-- A row still expired-active in a reachable state was already
expired-active in the base state. -/
theorem expired_of_reach_expired {db adb : AdminDB} (now : Int)
    (hr : SweepReach db adb) :
    ∀ t ∈ expiredSubscriptions adb now, t ∈ expiredSubscriptions db now := by
  intro t ht
  have hm := List.mem_filter.mp ht
  obtain ⟨hact, hend, hsome⟩ := (isExpiredActive_iff adb now t).mp hm.2
  obtain ⟨g, h, hg, hh, hus, hsubs, hpay⟩ := hr
  have hmem : t ∈ db.subscriptions := by
    have hmem' := hm.1
    rw [hsubs] at hmem'
    rcases List.mem_map.mp hmem' with ⟨x, hx, himg⟩
    rcases hh x with h1 | h1
    · rw [h1] at himg
      rw [← himg]
      exact hx
    · rw [h1] at himg
      have hfalse : t.is_active = false := by
        rw [← himg]
        rfl
      rw [hact] at hfalse
      cases hfalse
  refine List.mem_filter.mpr ⟨hmem, ?_⟩
  refine (isExpiredActive_iff db now t).mpr ⟨hact, hend, ?_⟩
  rw [← sweepReach_findUser_isSome ⟨g, h, hg, hh, hus, hsubs, hpay⟩ t.user_id]
  exact hsome

/-- The committed result of the sweep is reachable from its input. -/
theorem removeExpired_reach (revokeOk : Int → Bool) (now : Int)
    (db : AdminDB) :
    SweepReach db (removeExpiredSubscriptions revokeOk now db).1 := by
  unfold removeExpiredSubscriptions
  simp only []
  by_cases hc : 0 < ((expiredSubscriptions db now).foldl (sweepRow revokeOk)
      (db, [], 0)).2.2
  · rw [if_pos hc]
    exact sweepFold_reach revokeOk _ _ (sweepReach_refl db)
  · rw [if_neg hc]
    exact sweepReach_refl db

/-- If no expired row's user carries Telegram id `tid`, the sweep attempts
no effect addressed to `tid`. -/
theorem removeExpired_no_effects_for (revokeOk : Int → Bool) (now : Int)
    (db : AdminDB) (tid : Int)
    (hne : ∀ t ∈ expiredSubscriptions db now, ∀ w,
      findUserById db.users t.user_id = some w → w.telegram_id ≠ tid) :
    (removeExpiredSubscriptions revokeOk now db).2.filter
      (fun eff => effectTid eff = tid) = [] := by
  have heq := sweepFold_effects_other revokeOk tid
    (expiredSubscriptions db now) (db, [], 0) (sweepReach_refl db) hne
  have h21 : (removeExpiredSubscriptions revokeOk now db).2 =
      ((expiredSubscriptions db now).foldl (sweepRow revokeOk)
        (db, [], 0)).2.1 := rfl
  rw [h21, heq]
  rfl

/-- A deactivated row value survives a whole further sweep. -/
theorem removeExpired_preserves_deactivated (revokeOk : Int → Bool)
    (now : Int) (db : AdminDB) (s₀ : Subscription) (u₀ : UserRec)
    (hd : deactivated s₀ ∈ db.subscriptions)
    (hc : clearedPaid u₀ ∈ db.users) :
    deactivated s₀ ∈
      (removeExpiredSubscriptions revokeOk now db).1.subscriptions := by
  unfold removeExpiredSubscriptions
  simp only []
  by_cases hcond : 0 < ((expiredSubscriptions db now).foldl
      (sweepRow revokeOk) (db, [], 0)).2.2
  · rw [if_pos hcond]
    exact (sweepFold_preserves revokeOk _ (db, [], 0) s₀ u₀ hd hc).1
  · rw [if_neg hcond]
    exact hd

/-- `find?` after an in-place update of the found element. -/
theorem find_map_update {α : Type} [DecidableEq α] (p : α → Bool)
    (l : List α) (ex upd : α) (hfind : l.find? p = some ex)
    (hupd : p upd = true) :
    (l.map fun w => if w = ex then upd else w).find? p = some upd := by
  induction l with
  | nil => cases hfind
  | cons a t ih =>
    by_cases hpa : p a = true
    · rw [List.find?_cons_of_pos _ hpa] at hfind
      injection hfind with h
      subst h
      rw [List.map_cons, if_pos rfl, List.find?_cons_of_pos _ hupd]
    · rw [List.find?_cons_of_neg _ hpa] at hfind
      have hane : a ≠ ex := by
        intro h
        apply hpa
        rw [h]
        exact List.find?_some hfind
      rw [List.map_cons, if_neg hane, List.find?_cons_of_neg _ hpa]
      exact ih hfind

/-- Looking the user up again after `update_user_data` /
`handle_consent` overwrote the fetched row in place. -/
theorem findUserByTelegram_updateUser {users : List UserRec} {uid : Int}
    {ex upd : UserRec} (hfind : findUserByTelegram users uid = some ex)
    (htid : upd.telegram_id = ex.telegram_id) :
    findUserByTelegram (updateUser users ex upd) uid = some upd := by
  have hfind' : List.find? (fun u => decide (u.telegram_id = uid)) users =
      some ex := hfind
  have hpred := List.find?_some hfind'
  have hex : ex.telegram_id = uid := of_decide_eq_true hpred
  exact find_map_update _ users ex upd hfind' (by simp [htid, hex])

/-- Looking the user up after `db.add(new_user)`. -/
theorem findUserByTelegram_append_new (users : List UserRec) (uid : Int)
    (w : UserRec) (hnone : findUserByTelegram users uid = none)
    (htid : w.telegram_id = uid) :
    findUserByTelegram (users ++ [w]) uid = some w := by
  induction users with
  | nil =>
    unfold findUserByTelegram
    rw [List.nil_append]
    exact List.find?_cons_of_pos _ (by simp [htid])
  | cons a t ih =>
    unfold findUserByTelegram at hnone ih ⊢
    by_cases hpa : a.telegram_id = uid
    · rw [List.find?_cons_of_pos _ (by simpa using hpa)] at hnone
      cases hnone
    · rw [List.find?_cons_of_neg _ (by simpa using hpa)] at hnone
      rw [List.cons_append, List.find?_cons_of_neg _ (by simpa using hpa)]
      exact ih hnone

/-- One anchored attempt of the pattern accepts exactly a `+7` or `8`
prefix followed by ten characters of the digit class. -/
theorem phoneCore_iff (pyDigit : Char → Bool) (cs : List Char) :
    phoneCore pyDigit cs = true ↔
      ∃ ds : List Char, (cs = '+' :: '7' :: ds ∨ cs = '8' :: ds) ∧
        ds.length = 10 ∧ ∀ c ∈ ds, pyDigit c = true := by
  unfold phoneCore
  simp only [Bool.or_eq_true, Bool.and_eq_true, decide_eq_true_iff,
    List.all_eq_true]
  constructor
  · rintro (⟨⟨htake, hlen⟩, hall⟩ | ⟨⟨htake, hlen⟩, hall⟩)
    · refine ⟨cs.drop 2, Or.inl ?_, hlen,
        fun c hc => by simpa using hall c hc⟩
      conv_lhs => rw [← List.take_append_drop 2 cs]
      rw [htake]
      rfl
    · refine ⟨cs.drop 1, Or.inr ?_, hlen,
        fun c hc => by simpa using hall c hc⟩
      conv_lhs => rw [← List.take_append_drop 1 cs]
      rw [htake]
      rfl
  · rintro ⟨ds, hds | hds, hlen, hdig⟩
    · refine Or.inl ⟨⟨?_, ?_⟩, ?_⟩ <;> rw [hds]
      · rfl
      · simpa using hlen
      · simpa using fun c hc => hdig c hc
    · refine Or.inr ⟨⟨?_, ?_⟩, ?_⟩ <;> rw [hds]
      · rfl
      · simpa using hlen
      · simpa using fun c hc => hdig c hc

/-- A list whose last element is `c` is its `dropLast` with `c`
appended. -/
theorem eq_dropLast_concat_of_getLast_eq (l : List Char) (c : Char)
    (h : l.getLast? = some c) : l = l.dropLast ++ [c] := by
  rcases l with _ | ⟨a, t⟩
  · cases h
  · have hne : a :: t ≠ ([] : List Char) := List.cons_ne_nil a t
    have h2 := List.getLast?_eq_getLast (a :: t) hne
    rw [h] at h2
    injection h2 with h2
    rw [h2]
    exact (List.dropLast_append_getLast hne).symm

/-- The source-derived phone matcher accepts exactly the language of
`^(\+7|8)\d{10}$` under Python `re` semantics. -/
theorem matchesPhone_iff (pyDigit : Char → Bool) (s : String) :
    matchesPhone pyDigit s = true ↔ pyPhoneSpec pyDigit s := by
  unfold matchesPhone pyPhoneSpec
  simp only [Bool.or_eq_true, Bool.and_eq_true, decide_eq_true_iff]
  constructor
  · rintro (h | ⟨hlast, h⟩)
    · obtain ⟨ds, hds, hlen, hdig⟩ := (phoneCore_iff pyDigit s.toList).mp h
      refine ⟨ds, [], ?_, hlen, hdig, Or.inl rfl⟩
      simpa using hds
    · obtain ⟨ds, hds, hlen, hdig⟩ :=
        (phoneCore_iff pyDigit s.toList.dropLast).mp h
      have hsplit := eq_dropLast_concat_of_getLast_eq s.toList '\x0A' hlast
      refine ⟨ds, ['\x0A'], ?_, hlen, hdig, Or.inr rfl⟩
      rcases hds with h1 | h1
      · exact Or.inl (by rw [hsplit, h1]; rfl)
      · exact Or.inr (by rw [hsplit, h1]; rfl)
  · rintro ⟨ds, tl, hds, hlen, hdig, htl | htl⟩
    · subst htl
      refine Or.inl ((phoneCore_iff pyDigit s.toList).mpr
        ⟨ds, ?_, hlen, hdig⟩)
      simpa using hds
    · subst htl
      have hform : s.toList = ('+' :: '7' :: ds) ++ ['\x0A'] ∨
          s.toList = ('8' :: ds) ++ ['\x0A'] := by
        rcases hds with h1 | h1
        · exact Or.inl (by rw [h1]; rfl)
        · exact Or.inr (by rw [h1]; rfl)
      refine Or.inr ⟨?_, ?_⟩
      · rcases hform with h1 | h1 <;> rw [h1] <;>
          exact List.getLast?_concat _
      · refine (phoneCore_iff pyDigit s.toList.dropLast).mpr
          ⟨ds, ?_, hlen, hdig⟩
        rcases hform with h1 | h1
        · exact Or.inl (by rw [h1, List.dropLast_concat])
        · exact Or.inr (by rw [h1, List.dropLast_concat])

/-- The conventional (ASCII, end-anchored) reading of the regex is the
single anchored attempt with the ASCII digit class. -/
theorem phoneSpec_iff_core (s : String) :
    phoneSpec s ↔ phoneCore Char.isDigit s.toList = true := by
  unfold phoneSpec
  exact (phoneCore_iff Char.isDigit s.toList).symm

/-- Enlarging the digit class only enlarges the accepted language. -/
theorem matchesPhone_mono (f g : Char → Bool)
    (hfg : ∀ c, f c = true → g c = true) (s : String)
    (h : matchesPhone f s = true) : matchesPhone g s = true := by
  obtain ⟨ds, tl, hds, hlen, hdig, htl⟩ := (matchesPhone_iff f s).mp h
  exact (matchesPhone_iff g s).mpr ⟨ds, tl, hds, hlen,
    fun c hc => hfg c (hdig c hc), htl⟩

/-- `fields[5]`. -/
theorem fields_get_five : fields.get? 5 = some "participation_purpose" :=
  rfl

/-- `fields[4]`. -/
theorem fields_get_four : fields.get? 4 = some "contact_number" := rfl

/-- `start_command` enters the main menu only for a consented user,
changes no user row, and never asks for consent. -/
theorem startCommand_consent (uid : Int) (users : List UserRec)
    (scratch : List (Int × Scratch)) :
    ((startCommand uid users scratch).state = ConvState.mainMenu →
      hasConsent uid users) ∧
    (startCommand uid users scratch).users = users ∧
    BotMsg.consentPrompt ∉ (startCommand uid users scratch).msgs := by
  rcases hf : findUserByTelegram users uid with _ | ex
  · have heq : startCommand uid users scratch =
        { state := ConvState.fillingQuestionnaire,
          scratch := scratchSet (scratchDel scratch uid) uid
            { step := 0, answers := [] },
          users := users, msgs := [BotMsg.question 0] } := by
      unfold startCommand
      rw [hf]
    rw [heq]
    exact ⟨(fun h => ConvState.noConfusion h), rfl, (by simp)⟩
  · by_cases hc : ex.consent_given = true
    · have heq : startCommand uid users scratch =
          { state := ConvState.mainMenu,
            scratch := scratchDel scratch uid,
            users := users, msgs := [BotMsg.alreadyRegistered] } := by
        unfold startCommand
        rw [hf]
        simp only []
        rw [if_pos hc]
      rw [heq]
      exact ⟨(fun _ => ⟨ex, hf, hc⟩), rfl, (by simp)⟩
    · have heq : startCommand uid users scratch =
          { state := ConvState.fillingQuestionnaire,
            scratch := scratchSet (scratchDel scratch uid) uid
              { step := 0, answers := [] },
            users := users, msgs := [BotMsg.question 0] } := by
        unfold startCommand
        rw [hf]
        simp only []
        rw [if_neg hc]
      rw [heq]
      exact ⟨(fun h => ConvState.noConfusion h), rfl, (by simp)⟩

/-- `handle_questionnaire` reaches the main menu only with persisted
consent, and never asks a consented user for consent. -/
theorem handleQuestionnaire_spec (pyDigit : Char → Bool) (uid : Int)
    (value : String) (now : Int)
    (users : List UserRec) (scratch : List (Int × Scratch)) :
    ∀ r, handleQuestionnaire pyDigit uid value now users scratch =
        Except.ok r →
      (r.state = ConvState.mainMenu → hasConsent uid r.users) ∧
      (hasConsent uid users → BotMsg.consentPrompt ∉ r.msgs) := by
  intro r hr
  unfold handleQuestionnaire at hr
  rcases hscr : scratchGet scratch uid with _ | ud
  · rw [hscr] at hr
    injection hr with hr
    subst hr
    exact ⟨(fun h => ConvState.noConfusion h), (fun _ => by simp)⟩
  · rw [hscr] at hr
    simp only [] at hr
    rcases hfield : fields.get? ud.step with _ | fieldName
    · rw [hfield] at hr
      cases hr
    · rw [hfield] at hr
      simp only [] at hr
      by_cases h1 : fieldName = "full_name" ∧ (pySplitWords value).length < 2
      · rw [if_pos h1] at hr
        injection hr with hr
        subst hr
        exact ⟨(fun h => ConvState.noConfusion h), (fun _ => by simp)⟩
      · rw [if_neg h1] at hr
        by_cases h2 : fieldName = "contact_number" ∧
            ¬ matchesPhone pyDigit value
        · rw [if_pos h2] at hr
          injection hr with hr
          subst hr
          exact ⟨(fun h => ConvState.noConfusion h), (fun _ => by simp)⟩
        · rw [if_neg h2] at hr
          by_cases h3 : ud.step + 1 < 6
          · rw [if_pos h3] at hr
            injection hr with hr
            subst hr
            exact ⟨(fun h => ConvState.noConfusion h), (fun _ => by simp)⟩
          · rw [if_neg h3] at hr
            rcases hfind : findUserByTelegram users uid with _ | ex
            · rw [hfind] at hr
              injection hr with hr
              subst hr
              refine ⟨(fun h => ConvState.noConfusion h), fun hcon => ?_⟩
              obtain ⟨w, hw, -⟩ := hcon
              rw [hfind] at hw
              cases hw
            · rw [hfind] at hr
              simp only [] at hr
              by_cases hcg : ex.consent_given = true
              · rw [if_pos hcg] at hr
                injection hr with hr
                subst hr
                unfold updateUserData
                rw [hfind]
                simp only []
                refine ⟨fun _ => ?_, (fun _ => by simp)⟩
                exact ⟨_, findUserByTelegram_updateUser hfind rfl, hcg⟩
              · rw [if_neg hcg] at hr
                injection hr with hr
                subst hr
                refine ⟨(fun h => ConvState.noConfusion h), fun hcon => ?_⟩
                obtain ⟨w, hw, hwc⟩ := hcon
                rw [hfind] at hw
                injection hw with hw
                exact absurd (hw ▸ hwc) hcg

/-- `handle_consent` reaches the main menu only after persisting
`consent_given = true`, and never itself shows the consent prompt. -/
theorem handleConsent_spec (uid : Int) (username : Option String)
    (accept : Bool) (now : Int) (users : List UserRec)
    (scratch : List (Int × Scratch)) :
    ∀ r, handleConsent uid username accept now users scratch =
        Except.ok r →
      (r.state = ConvState.mainMenu → hasConsent uid r.users) ∧
      BotMsg.consentPrompt ∉ r.msgs := by
  intro r hr
  unfold handleConsent at hr
  by_cases hb : accept = true
  · rw [if_pos hb] at hr
    rcases hscr : scratchGet scratch uid with _ | ud
    · rw [hscr] at hr
      cases hr
    · rw [hscr] at hr
      simp only [] at hr
      rcases hfind : findUserByTelegram users uid with _ | ex
      · rw [hfind] at hr
        injection hr with hr
        subst hr
        refine ⟨fun _ => ?_, (by simp)⟩
        exact ⟨newUserFromScratch users uid username ud.answers now,
          findUserByTelegram_append_new users uid _ hfind rfl, rfl⟩
      · rw [hfind] at hr
        simp only [] at hr
        injection hr with hr
        subst hr
        refine ⟨fun _ => ?_, (by simp)⟩
        exact ⟨_, findUserByTelegram_updateUser hfind rfl, rfl⟩
  · rw [if_neg hb] at hr
    injection hr with hr
    subst hr
    exact ⟨(fun h => ConvState.noConfusion h), (by simp)⟩

/-- Per-event form of the consent-gate property, for handlers that
return normally. -/
theorem stepConv_ok_spec (pyDigit : Char → Bool) (uid : Int)
    (username : Option String) (now : Int)
    (st : ConvState) (users : List UserRec)
    (scratch : List (Int × Scratch)) (ev : ConvEvent) :
    ∀ r, stepConv pyDigit uid username now st users scratch ev =
        Except.ok r →
      (consentInvariant uid st users →
        (r.state = ConvState.mainMenu → hasConsent uid r.users)) ∧
      (hasConsent uid users → BotMsg.consentPrompt ∉ r.msgs) := by
  intro r hr
  unfold stepConv at hr
  rcases ev with _ | v | b
  · rcases st
    case ended =>
      injection hr with hr
      subst hr
      obtain ⟨hmain, husers, hmsg⟩ := startCommand_consent uid users scratch
      refine ⟨fun _ h => ?_, fun _ => hmsg⟩
      rw [husers]
      exact hmain h
    all_goals {
      injection hr with hr
      subst hr
      exact ⟨(fun hinv h => hinv h), (fun _ => List.not_mem_nil _)⟩
    }
  · rcases st
    case fillingQuestionnaire =>
      have hq := handleQuestionnaire_spec pyDigit uid v now users scratch
        r hr
      exact ⟨fun _ => hq.1, hq.2⟩
    all_goals {
      injection hr with hr
      subst hr
      exact ⟨(fun hinv h => hinv h), (fun _ => List.not_mem_nil _)⟩
    }
  · rcases st
    case waitingForConsent =>
      have hc := handleConsent_spec uid username b now users scratch r hr
      exact ⟨fun _ => hc.1, fun _ => hc.2⟩
    all_goals {
      injection hr with hr
      subst hr
      exact ⟨(fun hinv h => hinv h), (fun _ => List.not_mem_nil _)⟩
    }
/-- **C1.** `_parse_and_verify_payment_cookie` returns the embedded
`payment_id` exactly when the cookie splits on `"."` into
`payment_id.issued_at.sig` with `sig` the signature of
`payment_id ++ "." ++ issued_at`, `issued_at` parsing as an integer with
`now - issued_at ≤ 3600` and `issued_at ≤ now + 60`; every other input
returns no match (the model is a total function, so no exception
escapes). -/
theorem parse_and_verify_payment_cookie_spec (sign : String → String)
    (now : Int) (cookieValue paymentId : String) :
    parseAndVerifyPaymentCookie sign now cookieValue = some paymentId ↔
      ∃ issuedAtStr sig issuedAt,
        splitOnDot cookieValue = [paymentId, issuedAtStr, sig] ∧
        sig = sign (paymentId ++ "." ++ issuedAtStr) ∧
        pyInt issuedAtStr = some issuedAt ∧
        now - issuedAt ≤ 3600 ∧ issuedAt ≤ now + 60 := by
  unfold parseAndVerifyPaymentCookie
  rcases h : splitOnDot cookieValue with _ | ⟨a, _ | ⟨b, _ | ⟨c, _ | ⟨d, t⟩⟩⟩⟩ <;>
    simp only []
  · simp
  · simp
  · simp
  · by_cases hsig : c = sign (a ++ "." ++ b)
    · subst hsig
      rcases hp : pyInt b with _ | issuedAt
      · simp [hp]
      · simp only [eq_self_iff_true, if_true, hp, Option.some_bind]
        constructor
        · intro hv
          have hage : ¬(now - issuedAt > 3600 ∨ issuedAt > now + 60) := by
            intro hcon; rw [if_pos hcon] at hv; cases hv
          rw [if_neg hage] at hv
          injection hv with ha
          push_neg at hage
          exact ⟨b, sign (a ++ "." ++ b), issuedAt, by rw [ha], by rw [ha],
            hp, hage.1, hage.2⟩
        · rintro ⟨ts, sg, t', hsplit, hsg, hpt, h1, h2⟩
          obtain ⟨rfl, rfl, -⟩ : a = paymentId ∧ b = ts ∧
              sign (a ++ "." ++ b) = sg := by simpa using hsplit
          rw [hp] at hpt
          injection hpt with ht
          subst ht
          rw [if_neg (by omega)]
    · simp only [if_neg hsig]
      constructor
      · intro hv; cases hv
      · rintro ⟨ts, sg, t', hsplit, hsg, hpt, h1, h2⟩
        obtain ⟨rfl, rfl, hc⟩ : a = paymentId ∧ b = ts ∧ c = sg := by
          simpa using hsplit
        exact absurd (hc.trans hsg) hsig
  · simp

/-- **C2.** A payment row already in terminal status (`success` or
`failed`) is never changed by an invocation of the success or fail
redirect handler; a row can be rewritten only if it was `pending` and
created within the 60-minute window; and a replayed cookie bound to a
`payment_id` whose rows are all terminal is a complete no-op on the
database - in particular it performs no further subscription mutation. -/
theorem payment_terminal_immutable (sign : String → String) (now : Int)
    (grantOk : Bool) (dur : Int) (cv : String) (db : AdminDB) (p : Payment)
    (hmem : p ∈ db.payments)
    (hterm : p.status = "success" ∨ p.status = "failed") :
    p ∈ (robokassaSuccessFinal sign now grantOk dur (some cv) db).payments ∧
    p ∈ (robokassaFailFinal sign now (some cv) db).payments ∧
    (∀ q ∈ db.payments,
        q ∉ (robokassaSuccessFinal sign now grantOk dur (some cv) db).payments →
        q.status = "pending" ∧ now - 3600 ≤ q.created_at) ∧
    (∀ q ∈ db.payments,
        q ∉ (robokassaFailFinal sign now (some cv) db).payments →
        q.status = "pending" ∧ now - 3600 ≤ q.created_at) ∧
    ((∀ q ∈ db.payments, q.payment_id = p.payment_id → q.status ≠ "pending") →
      parseAndVerifyPaymentCookie sign now cv = some p.payment_id →
      robokassaSuccessFinal sign now grantOk dur (some cv) db = db ∧
      robokassaFailFinal sign now (some cv) db = db) := by
  have hne : p.status ≠ "pending" := by
    rcases hterm with h | h <;> rw [h] <;> decide
  rcases hm : matchedPendingPayment sign now (some cv) db with _ | t
  · have hs : robokassaSuccessFinal sign now grantOk dur (some cv) db = db := by
      rw [robokassaSuccessFinal_eq, hm]
    have hf : robokassaFailFinal sign now (some cv) db = db := by
      unfold robokassaFailFinal
      rw [hm]
    rw [hs, hf]
    exact ⟨hmem, hmem, fun q hq hnq => absurd hq hnq,
      fun q hq hnq => absurd hq hnq, fun _ _ => ⟨rfl, rfl⟩⟩
  · obtain ⟨cv', hcv, hver, hfind, htmem, hpend, hwin⟩ :=
      matchedPendingPayment_spec hm
    have hcveq : cv' = cv := by
      injection hcv with h
      exact h.symm
    rw [hcveq] at hver
    have hpneq : p ≠ t := by
      intro h
      rw [h] at hne
      exact hne hpend
    have hsp : (robokassaSuccessFinal sign now grantOk dur (some cv)
        db).payments = markPayment db.payments t "success" now := by
      rw [robokassaSuccessFinal_eq, hm]
      simp only []
      rcases hu2 : findUserById db.users t.user_id with _ | u
      · rfl
      · rcases grantOk <;> rfl
    have hfp : robokassaFailFinal sign now (some cv) db =
        { db with payments := markPayment db.payments t "failed" now } := by
      unfold robokassaFailFinal
      rw [hm]
    refine ⟨?_, ?_, ?_, ?_, ?_⟩
    · rw [hsp]
      exact mem_markPayment_of_ne hmem hpneq
    · rw [hfp]
      exact mem_markPayment_of_ne hmem hpneq
    · intro q hq hnq
      rw [hsp] at hnq
      have hqt := eq_target_of_not_mem_markPayment hq hnq
      rw [hqt]
      exact ⟨hpend, hwin⟩
    · intro q hq hnq
      rw [hfp] at hnq
      have hqt := eq_target_of_not_mem_markPayment hq hnq
      rw [hqt]
      exact ⟨hpend, hwin⟩
    · intro hall hv2
      rw [hver] at hv2
      injection hv2 with hv2
      exact absurd hpend (hall t htmem hv2)

/-- Witness for `payment_terminal_immutable`: replaying a cookie bound to
an already-successful payment changes nothing. -/
theorem payment_terminal_immutable_witness :
    robokassaSuccessFinal constSign 100 true 30 (some "P2.90.S") sampleDBdone
      = sampleDBdone ∧
    robokassaFailFinal constSign 100 (some "P2.90.S") sampleDBdone
      = sampleDBdone :=
  (payment_terminal_immutable constSign 100 true 30 "P2.90.S" sampleDBdone
    sampleDone (by decide) (Or.inl rfl)).2.2.2.2 (by decide) (by decide)

/-- **C3 (counterexample).** The success handler is not atomic: in a
concrete execution its commit trace contains a committed state in which
the payment is already marked `success` while the subscriptions table is
still exactly the pre-handler one (the subscription update lands only in
the following, separate transaction). -/
theorem robokassa_success_not_atomic :
    ¬ ∀ d ∈ robokassaSuccessTrace constSign 100 true 30 (some "P1.90.S")
        sampleDB,
        (∃ p ∈ d.payments, p.status = "success") →
          d.subscriptions ≠ sampleDB.subscriptions := by
  decide

/-- **C3 (amended).** On a verified successful redirect the handler
commits the payment flip and the subscription update in this order but in
two separate consecutive transactions (plus, when the external channel
grant succeeds, a third one for the user's paid-channel flags): the first
committed state carries the `success` payment with the subscriptions table
untouched, the second adds the subscription update, and an execution
interrupted between the two leaves the first state behind. -/
theorem robokassa_success_commit_order (sign : String → String) (now : Int)
    (grantOk : Bool) (dur : Int) (cookie : Option String) (db : AdminDB)
    (payment : Payment) (user : UserRec)
    (hm : matchedPendingPayment sign now cookie db = some payment)
    (hu : findUserById db.users payment.user_id = some user) :
    robokassaSuccessTrace sign now grantOk dur cookie db =
      { db with payments := markPayment db.payments payment "success" now } ::
      { db with payments := markPayment db.payments payment "success" now,
                subscriptions := (applySubscriptionPayment db.subscriptions
                  user.id now dur payment.amount) } ::
      (if grantOk then
         [{ db with
              payments := markPayment db.payments payment "success" now,
              subscriptions := (applySubscriptionPayment db.subscriptions
                user.id now dur payment.amount),
              users := setPaidChannelFlags db.users user now }]
       else []) := by
  unfold robokassaSuccessTrace
  rw [hm]
  simp only []
  rw [hu]
  rcases grantOk <;> rfl

/-- Witness for `robokassa_success_commit_order` at a concrete database. -/
theorem robokassa_success_commit_order_witness :
    (robokassaSuccessTrace constSign 100 true 30 (some "P1.90.S")
      sampleDB).length = 3 := by
  rw [robokassa_success_commit_order constSign 100 true 30 (some "P1.90.S")
    sampleDB samplePending sampleUser (by decide) (by decide)]
  rfl

/-- **C4.** On a verified successful payment: a subscription whose
`end_date` is set and still in the future has exactly `dur` days added to
its `end_date` (its `start_date` untouched); a subscription with no or a
past `end_date` is reset to `start_date = now`, `end_date = now + dur`
days, `is_active = true`; and a user with no subscription row gets a fresh
active row with `start_date = now` and `end_date = now + dur` days. -/
theorem subscription_renewal_spec (sign : String → String) (now : Int)
    (grantOk : Bool) (dur : Int) (cookie : Option String) (db : AdminDB)
    (payment : Payment) (user : UserRec)
    (hm : matchedPendingPayment sign now cookie db = some payment)
    (hu : findUserById db.users payment.user_id = some user) :
    (∀ s e, findSubscriptionByUser db.subscriptions user.id = some s →
       s.end_date = some e → e > now →
       (robokassaSuccessFinal sign now grantOk dur cookie db).subscriptions =
         updateSubscription db.subscriptions s
           { s with end_date := some (e + dur * 86400), is_active := true }) ∧
    (∀ s, findSubscriptionByUser db.subscriptions user.id = some s →
       (∀ e, s.end_date = some e → ¬ e > now) →
       (robokassaSuccessFinal sign now grantOk dur cookie db).subscriptions =
         updateSubscription db.subscriptions s
           { s with start_date := now, end_date := some (now + dur * 86400),
                    is_active := true }) ∧
    (findSubscriptionByUser db.subscriptions user.id = none →
       (robokassaSuccessFinal sign now grantOk dur cookie db).subscriptions =
         db.subscriptions ++
           [{ id := freshSubId db.subscriptions, user_id := user.id,
              start_date := now, end_date := some (now + dur * 86400),
              is_active := true, auto_renewal := false,
              payment_amount := if payment.amount ≠ 0
                then some (payment.amount / 100) else none }]) := by
  have hsubs : (robokassaSuccessFinal sign now grantOk dur cookie
      db).subscriptions =
      applySubscriptionPayment db.subscriptions user.id now dur
        payment.amount := by
    rw [robokassaSuccessFinal_eq, hm]
    simp only []
    rw [hu]
    rcases grantOk <;> rfl
  refine ⟨?_, ?_, ?_⟩
  · intro s e hs he hlt
    rw [hsubs]
    unfold applySubscriptionPayment
    rw [hs]
    simp only []
    rw [he]
    simp only []
    rw [if_pos hlt]
  · intro s hs hnot
    rw [hsubs]
    unfold applySubscriptionPayment
    rw [hs]
    simp only []
    rcases hse : s.end_date with _ | e
    · simp [hse]
    · have hle := hnot e hse
      simp [hse, hle]
  · intro hnone
    rw [hsubs]
    unfold applySubscriptionPayment
    rw [hnone]

/-- Witness for `subscription_renewal_spec`: first payment of a user with
no subscription row creates the 30-day active row. -/
theorem subscription_renewal_spec_witness :
    (robokassaSuccessFinal constSign 100 true 30 (some "P1.90.S")
        sampleDB).subscriptions =
      sampleDB.subscriptions ++
        [{ id := freshSubId sampleDB.subscriptions, user_id := sampleUser.id,
           start_date := 100, end_date := some (100 + 30 * 86400),
           is_active := true, auto_renewal := false,
           payment_amount := if samplePending.amount ≠ 0
             then some (samplePending.amount / 100) else none }] :=
  (subscription_renewal_spec constSign 100 true 30 (some "P1.90.S") sampleDB
    samplePending sampleUser (by decide) (by decide)).2.2 (by decide)

/-- **C10.** The fail redirect handler never touches the `users` or
`subscriptions` tables: either it changes nothing at all, or it rewrites
exactly the pending-within-window row matched by the verified cookie to
`failed` with `completed_at = now`, leaving every other payment row in
place. -/
theorem robokassa_fail_frame (sign : String → String) (now : Int)
    (cookie : Option String) (db : AdminDB) :
    (robokassaFailFinal sign now cookie db).users = db.users ∧
    (robokassaFailFinal sign now cookie db).subscriptions =
      db.subscriptions ∧
    (robokassaFailFinal sign now cookie db = db ∨
      ∃ cv target, cookie = some cv ∧
        parseAndVerifyPaymentCookie sign now cv = some target.payment_id ∧
        target ∈ db.payments ∧ target.status = "pending" ∧
        now - 3600 ≤ target.created_at ∧
        (robokassaFailFinal sign now cookie db).payments =
          markPayment db.payments target "failed" now ∧
        ({ target with status := "failed", completed_at := some now } :
            Payment) ∈ (robokassaFailFinal sign now cookie db).payments ∧
        ∀ q ∈ db.payments, q ≠ target →
          q ∈ (robokassaFailFinal sign now cookie db).payments) := by
  rcases hm : matchedPendingPayment sign now cookie db with _ | t
  · have hf : robokassaFailFinal sign now cookie db = db := by
      unfold robokassaFailFinal
      rw [hm]
    rw [hf]
    exact ⟨rfl, rfl, Or.inl rfl⟩
  · obtain ⟨cv, hcv, hver, hfind, htmem, hpend, hwin⟩ :=
      matchedPendingPayment_spec hm
    have hf : robokassaFailFinal sign now cookie db =
        { db with payments := markPayment db.payments t "failed" now } := by
      unfold robokassaFailFinal
      rw [hm]
    rw [hf]
    exact ⟨rfl, rfl, Or.inr ⟨cv, t, hcv, hver, htmem, hpend, hwin, rfl,
      mem_markPayment_target htmem,
      fun q hq hne => mem_markPayment_of_ne hq hne⟩⟩

/-- **C7.** A failure while processing one expired row is caught per-row
and does not abort the sweep: every expired row whose own revoke call
succeeds is deactivated, its user's paid-channel flags are cleared, and
the result is committed - whatever the external client does on the other
rows. -/
theorem sweep_continue_on_error (revokeOk : Int → Bool) (now : Int)
    (db : AdminDB) (s : Subscription) (u : UserRec)
    (hs : s ∈ expiredSubscriptions db now)
    (hu : findUserById db.users s.user_id = some u)
    (hok : revokeOk u.telegram_id = true) :
    deactivated s ∈
      (removeExpiredSubscriptions revokeOk now db).1.subscriptions ∧
    clearedPaid u ∈ (removeExpiredSubscriptions revokeOk now db).1.users := by
  obtain ⟨l1, l2, hsplit⟩ := List.append_of_mem hs
  have hsmem : s ∈ db.subscriptions := (List.mem_filter.mp hs).1
  have hreach : SweepReach db (l1.foldl (sweepRow revokeOk) (db, [], 0)).1 :=
    sweepFold_reach revokeOk l1 _ (sweepReach_refl db)
  have hhit := sweepRow_hits revokeOk hreach hsmem hu hok
  have hpres := sweepFold_preserves revokeOk l2
    (sweepRow revokeOk (l1.foldl (sweepRow revokeOk) (db, [], 0)) s) s u
    hhit.1 hhit.2.1
  have hcnt : 0 < (l2.foldl (sweepRow revokeOk)
      (sweepRow revokeOk (l1.foldl (sweepRow revokeOk) (db, [], 0))
        s)).2.2 := by
    have h1 := hhit.2.2.1
    have h2 := sweepFold_count_le revokeOk l2
      (sweepRow revokeOk (l1.foldl (sweepRow revokeOk) (db, [], 0)) s)
    omega
  unfold removeExpiredSubscriptions
  simp only []
  rw [hsplit, List.foldl_append, List.foldl_cons, if_pos hcnt]
  exact hpres

/-- Witness for `sweep_continue_on_error`: the ban call fails for the
first user, yet the second row is still revoked and committed. -/
theorem sweep_continue_on_error_witness :
    deactivated sampleExpiredSub2 ∈
      (removeExpiredSubscriptions failFirstRevoke 100
        sampleSweepDB2).1.subscriptions :=
  (sweep_continue_on_error failFirstRevoke 100 sampleSweepDB2
    sampleExpiredSub2 samplePaidUser2 (by decide) (by decide) (by decide)).1

/-- **C5.** On a database where `s` is the unique expired-active row and
no other expired row belongs to its user: one sweep attempts exactly one
revoke call and one removal notice addressed to that user, commits
`is_active = false` on the row and clears the user's paid-channel flags;
an immediately repeated sweep attempts no effect addressed to that user
and keeps the row deactivated. -/
theorem sweep_revoke_exactly_once (revokeOk : Int → Bool) (now : Int)
    (db : AdminDB) (s : Subscription) (u : UserRec)
    (hcnt1 : db.subscriptions.count s = 1)
    (hs : s ∈ expiredSubscriptions db now)
    (hu : findUserById db.users s.user_id = some u)
    (hok : revokeOk u.telegram_id = true)
    (huniq : ∀ t ∈ expiredSubscriptions db now, t ≠ s →
      ∀ w, findUserById db.users t.user_id = some w →
        w.telegram_id ≠ u.telegram_id) :
    ((removeExpiredSubscriptions revokeOk now db).2.filter
        (fun eff => effectTid eff = u.telegram_id)) =
      [SweepEffect.revokeCall u.telegram_id,
       SweepEffect.removalNotice u.telegram_id] ∧
    deactivated s ∈
      (removeExpiredSubscriptions revokeOk now db).1.subscriptions ∧
    clearedPaid u ∈ (removeExpiredSubscriptions revokeOk now db).1.users ∧
    ((removeExpiredSubscriptions revokeOk now
        (removeExpiredSubscriptions revokeOk now db).1).2.filter
        (fun eff => effectTid eff = u.telegram_id)) = [] ∧
    deactivated s ∈
      (removeExpiredSubscriptions revokeOk now
        (removeExpiredSubscriptions revokeOk now db).1).1.subscriptions := by
  have hmf := List.mem_filter.mp hs
  have hsmem : s ∈ db.subscriptions := hmf.1
  have hps : isExpiredActive db now s = true := hmf.2
  have hact : s.is_active = true := ((isExpiredActive_iff db now s).mp hps).1
  have hrowcnt : (expiredSubscriptions db now).count s = 1 := by
    unfold expiredSubscriptions
    rw [List.count_filter hps]
    exact hcnt1
  obtain ⟨l1, l2, hsplit, hnl1, hnl2⟩ := count_one_split hrowcnt
  have hne1 : ∀ t ∈ l1, ∀ w, findUserById db.users t.user_id = some w →
      w.telegram_id ≠ u.telegram_id := by
    intro t ht w hw
    refine huniq t ?_ ?_ w hw
    · rw [hsplit]
      exact List.mem_append_left _ ht
    · intro hts
      rw [hts] at ht
      exact hnl1 ht
  have hne2 : ∀ t ∈ l2, ∀ w, findUserById db.users t.user_id = some w →
      w.telegram_id ≠ u.telegram_id := by
    intro t ht w hw
    refine huniq t ?_ ?_ w hw
    · rw [hsplit]
      exact List.mem_append_right _ (List.mem_cons_of_mem s ht)
    · intro hts
      rw [hts] at ht
      exact hnl2 ht
  have hreach1 : SweepReach db (l1.foldl (sweepRow revokeOk)
      (db, [], 0)).1 :=
    sweepFold_reach revokeOk l1 _ (sweepReach_refl db)
  have hhit := sweepRow_hits revokeOk hreach1 hsmem hu hok
  have hreach2 : SweepReach db (sweepRow revokeOk
      (l1.foldl (sweepRow revokeOk) (db, [], 0)) s).1 :=
    sweepRow_reach revokeOk s hreach1
  have hcnt : 0 < (l2.foldl (sweepRow revokeOk)
      (sweepRow revokeOk (l1.foldl (sweepRow revokeOk) (db, [], 0))
        s)).2.2 := by
    have h1 := hhit.2.2.1
    have h2 := sweepFold_count_le revokeOk l2
      (sweepRow revokeOk (l1.foldl (sweepRow revokeOk) (db, [], 0)) s)
    omega
  have hpres := sweepFold_preserves revokeOk l2
    (sweepRow revokeOk (l1.foldl (sweepRow revokeOk) (db, [], 0)) s) s u
    hhit.1 hhit.2.1
  have hgone : s ∉ (l2.foldl (sweepRow revokeOk)
      (sweepRow revokeOk (l1.foldl (sweepRow revokeOk) (db, [], 0))
        s)).1.subscriptions :=
    sweepFold_not_mem revokeOk l2 _ s hact (hhit.2.2.2 hact)
  have heff_l1 : (l1.foldl (sweepRow revokeOk) (db, [], 0)).2.1.filter
      (fun eff => effectTid eff = u.telegram_id) = [] := by
    have heq := sweepFold_effects_other revokeOk u.telegram_id l1
      (db, [], 0) (sweepReach_refl db) hne1
    rw [heq]
    rfl
  have heff_s := sweepRow_effects_self revokeOk hreach1 hu hok
  have heff_l2 := sweepFold_effects_other revokeOk u.telegram_id l2
    (sweepRow revokeOk (l1.foldl (sweepRow revokeOk) (db, [], 0)) s)
    hreach2 hne2
  have hmain : deactivated s ∈
      (removeExpiredSubscriptions revokeOk now db).1.subscriptions ∧
      clearedPaid u ∈ (removeExpiredSubscriptions revokeOk now db).1.users
      := by
    unfold removeExpiredSubscriptions
    simp only []
    rw [hsplit, List.foldl_append, List.foldl_cons, if_pos hcnt]
    exact hpres
  have hsnot : s ∉
      (removeExpiredSubscriptions revokeOk now db).1.subscriptions := by
    unfold removeExpiredSubscriptions
    simp only []
    rw [hsplit, List.foldl_append, List.foldl_cons, if_pos hcnt]
    exact hgone
  have hreach' : SweepReach db (removeExpiredSubscriptions revokeOk now
      db).1 := removeExpired_reach revokeOk now db
  refine ⟨?_, hmain.1, hmain.2, ?_, ?_⟩
  · have h21 : (removeExpiredSubscriptions revokeOk now db).2 =
        ((expiredSubscriptions db now).foldl (sweepRow revokeOk)
          (db, [], 0)).2.1 := rfl
    rw [h21, hsplit, List.foldl_append, List.foldl_cons, heff_l2, heff_s,
      heff_l1]
    rfl
  · refine removeExpired_no_effects_for revokeOk now _ u.telegram_id ?_
    intro t ht w hw
    have htbase : t ∈ expiredSubscriptions db now :=
      expired_of_reach_expired now hreach' t ht
    have htne : t ≠ s := by
      intro hts
      apply hsnot
      rw [← hts]
      exact (List.mem_filter.mp ht).1
    rcases hw0 : findUserById db.users t.user_id with _ | w0
    · have hnone := (sweepReach_findUser hreach' t.user_id).1 hw0
      rw [hnone] at hw
      cases hw
    · have hcases := (sweepReach_findUser hreach' t.user_id).2 w0 hw0
      have hwt : w.telegram_id = w0.telegram_id := by
        rcases hcases with hc | hc <;> rw [hw] at hc <;> injection hc with hc
        · rw [hc]
        · rw [hc]
          rfl
      rw [hwt]
      exact huniq t htbase htne w0 hw0
  · exact removeExpired_preserves_deactivated revokeOk now _ s u hmain.1
      hmain.2

/-- Witness for `sweep_revoke_exactly_once` at a concrete database. -/
theorem sweep_revoke_exactly_once_witness :
    ((removeExpiredSubscriptions allRevokeOk 100 sampleSweepDB).2.filter
        (fun eff => effectTid eff = samplePaidUser.telegram_id)) =
      [SweepEffect.revokeCall samplePaidUser.telegram_id,
       SweepEffect.removalNotice samplePaidUser.telegram_id] :=
  (sweep_revoke_exactly_once allRevokeOk 100 sampleSweepDB sampleExpiredSub
    samplePaidUser (by decide) (by decide) (by decide) (by decide)
    (by decide)).1

/-- **C6.** The registration conversation reaches the main menu only with
a persisted consenting user row (an inductive invariant over every
dispatched event); it never shows the consent prompt to a user whose row
already has `consent_given = true`; and such a user completing the
questionnaire again has the profile overwritten in place and lands in the
main menu. -/
theorem registration_consent_gate (pyDigit : Char → Bool) (uid : Int)
    (username : Option String)
    (now : Int) (st : ConvState) (users : List UserRec)
    (scratch : List (Int × Scratch)) (ev : ConvEvent) :
    (consentInvariant uid st users →
      consentInvariant uid
        (stepConvTotal pyDigit uid username now st users scratch ev).state
        (stepConvTotal pyDigit uid username now st users scratch ev).users) ∧
    (hasConsent uid users →
      BotMsg.consentPrompt ∉
        (stepConvTotal pyDigit uid username now st users scratch ev).msgs) ∧
    (∀ ud ex v, st = ConvState.fillingQuestionnaire →
      scratchGet scratch uid = some ud → ud.step = 5 →
      findUserByTelegram users uid = some ex → ex.consent_given = true →
      ev = ConvEvent.text v →
      (stepConvTotal pyDigit uid username now st users scratch ev).state =
        ConvState.mainMenu ∧
      (stepConvTotal pyDigit uid username now st users scratch ev).users =
        updateUser users ex (applyProfile ex
          (dictInsert ud.answers "participation_purpose" v) now)) := by
  refine ⟨?_, ?_, ?_⟩
  · intro hinv
    unfold stepConvTotal
    rcases hst : stepConv pyDigit uid username now st users scratch ev
      with e | r
    · intro h
      exact hinv h
    · exact (stepConv_ok_spec pyDigit uid username now st users scratch ev
        r hst).1 hinv
  · intro hcon
    unfold stepConvTotal
    rcases hst : stepConv pyDigit uid username now st users scratch ev
      with e | r
    · exact List.not_mem_nil _
    · exact (stepConv_ok_spec pyDigit uid username now st users scratch ev
        r hst).2 hcon
  · intro ud ex v hst1 hscr hstep hfind hcg hev
    subst hst1 hev
    have h1x : ¬ ("participation_purpose" = "full_name" ∧
        (pySplitWords v).length < 2) := fun h => absurd h.1 (by decide)
    have h2x : ¬ ("participation_purpose" = "contact_number" ∧
        ¬ matchesPhone pyDigit v) := fun h => absurd h.1 (by decide)
    have heq : stepConv pyDigit uid username now
        ConvState.fillingQuestionnaire
        users scratch (ConvEvent.text v) = Except.ok
          { state := ConvState.mainMenu,
            scratch := scratchDel (scratchSet scratch uid
              { step := 6, answers := dictInsert ud.answers
                  "participation_purpose" v }) uid,
            users := updateUser users ex (applyProfile ex
              (dictInsert ud.answers "participation_purpose" v) now),
            msgs := [BotMsg.profileUpdated, BotMsg.mainMenuShown] } := by
      show handleQuestionnaire pyDigit uid v now users scratch = _
      unfold handleQuestionnaire updateUserData
      rw [hscr]
      simp only []
      rw [hstep, fields_get_five]
      simp [hfind, hcg]
    unfold stepConvTotal
    rw [heq]
    exact ⟨rfl, rfl⟩

/-- Witness for `registration_consent_gate`: a consented user finishing
the questionnaire lands in the main menu. -/
theorem registration_consent_gate_witness :
    (stepConvTotal Char.isDigit 10 (some "u") 0
      ConvState.fillingQuestionnaire
      [sampleUser] [(10, sampleScratch5)] (ConvEvent.text "net")).state =
      ConvState.mainMenu :=
  ((registration_consent_gate Char.isDigit 10 (some "u") 0
      ConvState.fillingQuestionnaire [sampleUser] [(10, sampleScratch5)]
      (ConvEvent.text "net")).2.2 sampleScratch5 sampleUser "net" rfl
    (by decide) (by decide) (by decide) (by decide) rfl).1

/-- **C8 (counterexample).** The accept branch of `handle_consent` reads
`user_data_temp[user_id]` with no membership guard: a `consent_yes` press
arriving with no scratch entry raises `KeyError` out of the handler
instead of terminating the conversation safely with an error message. -/
theorem consent_without_scratch_raises :
    handleConsent 10 (some "u") true 0 [sampleUser] [] =
      Except.error () := rfl

/-- **C8 (amended).** A questionnaire answer with no scratch entry is a
safe idempotent no-op (error reply, conversation ended, nothing
persisted); a consent decline likewise changes nothing; but a consent
acceptance with no scratch entry raises `KeyError` out of the handler -
no persistent `User` state is changed in any of these cases, yet the
exception-freedom and safe-termination parts of the claim fail for the
consent handler. -/
theorem no_scratch_event_handling (pyDigit : Char → Bool) (uid : Int)
    (username : Option String)
    (now : Int) (users : List UserRec) (scratch : List (Int × Scratch))
    (v : String) (hnone : scratchGet scratch uid = none) :
    handleQuestionnaire pyDigit uid v now users scratch =
      Except.ok { state := ConvState.ended, scratch := scratch,
                  users := users, msgs := [BotMsg.scratchError] } ∧
    handleConsent uid username false now users scratch =
      Except.ok { state := ConvState.ended, scratch := scratch,
                  users := users, msgs := [BotMsg.consentDeclined] } ∧
    handleConsent uid username true now users scratch = Except.error () ∧
    (∀ st b, (stepConvTotal pyDigit uid username now st users scratch
        (ConvEvent.consent b)).users = users) ∧
    (∀ st, (stepConvTotal pyDigit uid username now st users scratch
        (ConvEvent.text v)).users = users) := by
  have hq : handleQuestionnaire pyDigit uid v now users scratch = Except.ok
      { state := ConvState.ended, scratch := scratch, users := users,
        msgs := [BotMsg.scratchError] } := by
    unfold handleQuestionnaire
    rw [hnone]
  have hcyes : handleConsent uid username true now users scratch =
      Except.error () := by
    unfold handleConsent
    rw [if_pos rfl, hnone]
  have hcno : handleConsent uid username false now users scratch =
      Except.ok
        { state := ConvState.ended, scratch := scratch, users := users,
          msgs := [BotMsg.consentDeclined] } := by
    unfold handleConsent
    rw [if_neg (by decide : ¬ (false = true))]
  refine ⟨hq, hcno, hcyes, ?_, ?_⟩
  · intro st b
    unfold stepConvTotal stepConv
    rcases st <;> rcases b
    all_goals first
      | rfl
      | simp [hcyes]
  · intro st
    unfold stepConvTotal stepConv
    rcases st
    all_goals first
      | rfl
      | simp [hq]

/-- Witness for the C8 amended theorem: with an empty scratch map the
questionnaire handler for user 10 is the safe ended no-op. -/
theorem no_scratch_event_handling_witness :
    scratchGet ([] : List (Int × Scratch)) 10 = none ∧
    handleQuestionnaire Char.isDigit 10 "x" 0 [sampleUser] [] =
      Except.ok { state := ConvState.ended, scratch := [],
                  users := [sampleUser], msgs := [BotMsg.scratchError] } :=
  ⟨rfl, (no_scratch_event_handling Char.isDigit 10 (some "u") 0
    [sampleUser] [] "x" rfl).1⟩

/-- **C9 (counterexample).** The validation does not accept exactly the
plain language of `^(\+7|8)\d{10}$`: under Python `re` semantics `$` also
matches just before a trailing newline, so whatever the interpreter's
Unicode digit table contains beyond the ASCII digits, `re.match` accepts
`"+79991234567\n"`, a string outside the regex's conventional (ASCII,
end-of-string) language. -/
theorem phone_validation_not_exact :
    ¬ (∀ pyDigit : Char → Bool,
        (∀ c : Char, c.isDigit = true → pyDigit c = true) →
        ∀ s : String, matchesPhone pyDigit s = true ↔ phoneSpec s) := by
  intro h
  have hacc : matchesPhone Char.isDigit "+79991234567\x0A" = true := by
    decide
  have hspec := (h Char.isDigit (fun _ hc => hc) "+79991234567\x0A").mp hacc
  exact absurd ((phoneSpec_iff_core _).mp hspec) (by decide)

/-- **C9 (amended).** For every digit class containing the ASCII digits
(as Python's Unicode `\d` class does), the contact-number validation
accepts exactly the language of `^(\+7|8)\d{10}$` under Python `re`
semantics - a `+7` or `8` prefix, ten characters of the digit class, and
an optional single trailing newline admitted by `$`; it accepts every
string of the regex's conventional (ASCII, end-of-string) language, in
particular `+79991234567` and `89991234567`, but also accepts
`"+79991234567\n"`; it rejects `9991234567` and `+7999123456` whatever
the digit class; a rejected answer leaves the conversation in
`FillingQuestionnaire` with the scratch entry - hence the step index -
unchanged and re-prompts for the phone; an accepted answer is stored and
the dialogue advances to the last question. -/
theorem phone_validation_spec (pyDigit : Char → Bool)
    (hsup : ∀ c : Char, c.isDigit = true → pyDigit c = true)
    (uid : Int) (now : Int)
    (users : List UserRec) (scratch : List (Int × Scratch)) (ud : Scratch)
    (v : String) (hscr : scratchGet scratch uid = some ud)
    (hstep : ud.step = 4) :
    (matchesPhone pyDigit v = true ↔ pyPhoneSpec pyDigit v) ∧
    (phoneSpec v → matchesPhone pyDigit v = true) ∧
    matchesPhone pyDigit "+79991234567" = true ∧
    matchesPhone pyDigit "89991234567" = true ∧
    matchesPhone pyDigit "+79991234567\x0A" = true ∧
    matchesPhone pyDigit "9991234567" = false ∧
    matchesPhone pyDigit "+7999123456" = false ∧
    (matchesPhone pyDigit v = false →
      handleQuestionnaire pyDigit uid v now users scratch =
        Except.ok { state := ConvState.fillingQuestionnaire,
                    scratch := scratch, users := users,
                    msgs := [BotMsg.phoneReprompt] }) ∧
    (matchesPhone pyDigit v = true →
      handleQuestionnaire pyDigit uid v now users scratch =
        Except.ok { state := ConvState.fillingQuestionnaire,
                    scratch := scratchSet scratch uid
                      { step := 5, answers := dictInsert ud.answers
                          "contact_number" v },
                    users := users, msgs := [BotMsg.question 5] }) := by
  have h1x : ¬ ("contact_number" = "full_name" ∧
      (pySplitWords v).length < 2) := fun h => absurd h.1 (by decide)
  have hup : ∀ t : String, matchesPhone Char.isDigit t = true →
      matchesPhone pyDigit t = true :=
    fun t => matchesPhone_mono Char.isDigit pyDigit hsup t
  have hdown : ∀ t : String, matchesPhone (fun _ => true) t = false →
      matchesPhone pyDigit t = false := by
    intro t hf
    rcases hb : matchesPhone pyDigit t with _ | _
    · rfl
    · have hm := matchesPhone_mono pyDigit (fun _ => true)
        (fun _ _ => rfl) t hb
      rw [hm] at hf
      cases hf
  refine ⟨matchesPhone_iff pyDigit v, ?_, hup _ (by decide),
    hup _ (by decide), hup _ (by decide), hdown _ (by decide),
    hdown _ (by decide), ?_, ?_⟩
  · intro hv
    apply hup
    unfold matchesPhone
    rw [(phoneSpec_iff_core v).mp hv]
    rfl
  · intro hmv
    unfold handleQuestionnaire
    rw [hscr]
    simp only []
    rw [hstep, fields_get_four]
    simp [hmv]
  · intro hmv
    unfold handleQuestionnaire
    rw [hscr]
    simp only []
    rw [hstep, fields_get_four]
    simp [hmv]

/-- Witness for `phone_validation_spec`: with the ASCII digit class, a
short number is rejected and the conversation does not advance. -/
theorem phone_validation_spec_witness :
    handleQuestionnaire Char.isDigit 10 "9991234567" 0 [sampleUser]
        [(10, sampleScratch4)] =
      Except.ok { state := ConvState.fillingQuestionnaire,
                  scratch := [(10, sampleScratch4)], users := [sampleUser],
                  msgs := [BotMsg.phoneReprompt] } :=
  (phone_validation_spec Char.isDigit (fun _ hc => hc) 10 0 [sampleUser]
      [(10, sampleScratch4)] sampleScratch4 "9991234567" (by decide)
      (by decide)).2.2.2.2.2.2.2.1 (by decide)

end TgBot
